import Mathlib

set_option maxRecDepth 100000

/-!
Verification of the Multi-agent Risk Reporter pipeline (shallow embedding).

Each definition below is translated from the repository source
(`src/ingestion/pii.py`, `src/ingestion/chunker.py`, `src/retrieval/retriever.py`,
`src/retrieval/store.py`, `src/agents/*.py`).  External collaborators (the LLM
call, the embedding model, the Chroma index, the filesystem) are passed in as
explicit function arguments, exactly at the boundaries where the Python code
calls them.  Machine floats appear only as retrieval distances; they are
modelled as rationals since no claim below depends on float rounding.
-/

/-- Model of a Python value as produced by `yaml.safe_load` / `json.load`.
Floats are not modelled (no settled claim evaluates a float). -/
inductive PyVal where
  | pstr (s : String)
  | pint (n : Int)
  | pnone
  | plist (xs : List PyVal)
  | pdict (kvs : List (String × PyVal))

namespace PyVal

mutual

/-- Structural equality test (Python `==` on these value shapes). -/
def beq : PyVal → PyVal → Bool
  | .pstr a, .pstr b => a == b
  | .pint a, .pint b => a == b
  | .pnone, .pnone => true
  | .plist a, .plist b => beqList a b
  | .pdict a, .pdict b => beqDict a b
  | _, _ => false

def beqList : List PyVal → List PyVal → Bool
  | [], [] => true
  | x :: xs, y :: ys => beq x y && beqList xs ys
  | _, _ => false

def beqDict : List (String × PyVal) → List (String × PyVal) → Bool
  | [], [] => true
  | (k, v) :: xs, (k', v') :: ys => k == k' && beq v v' && beqDict xs ys
  | _, _ => false

end

mutual

theorem beq_iff : ∀ a b : PyVal, beq a b = true ↔ a = b
  | .pstr _, b => by cases b <;> simp [beq]
  | .pint _, b => by cases b <;> simp [beq]
  | .pnone, b => by cases b <;> simp [beq]
  | .plist xs, b => by
      cases b <;> simp [beq]
      exact beqList_iff xs _
  | .pdict kvs, b => by
      cases b <;> simp [beq]
      exact beqDict_iff kvs _

theorem beqList_iff : ∀ xs ys : List PyVal, beqList xs ys = true ↔ xs = ys
  | [], ys => by cases ys <;> simp [beqList]
  | _ :: _, [] => by simp [beqList]
  | x :: xs, y :: ys => by
      simp only [beqList, Bool.and_eq_true, List.cons.injEq]
      exact and_congr (beq_iff x y) (beqList_iff xs ys)

theorem beqDict_iff : ∀ xs ys : List (String × PyVal),
    beqDict xs ys = true ↔ xs = ys
  | [], ys => by cases ys <;> simp [beqDict]
  | _ :: _, [] => by simp [beqDict]
  | (k, v) :: xs, (k', v') :: ys => by
      simp only [beqDict, Bool.and_eq_true, List.cons.injEq, Prod.mk.injEq,
        beq_iff_eq, and_assoc]
      exact and_congr Iff.rfl (and_congr (beq_iff v v') (beqDict_iff xs ys))

end

instance : DecidableEq PyVal := fun a b =>
  decidable_of_iff (beq a b = true) (beq_iff a b)

/-- `d.get(k)` on a Python dict: first binding wins (Python dicts have unique
keys; assoc-list lookup of the first occurrence models that). -/
def lookup (k : String) : List (String × PyVal) → Option PyVal
  | [] => none
  | (k', v) :: rest => if k' = k then some v else lookup k rest

/-- `d.get(key)` (returns `None`, i.e. `none`, when missing or not a dict). -/
def pyGet (v : PyVal) (k : String) : Option PyVal :=
  match v with
  | pdict kvs => lookup k kvs
  | _ => none

/-- Python truthiness of an optional value (`None`, `""`, `0`, `[]`, `{}` are
falsy). -/
def truthy : Option PyVal → Bool
  | none => false
  | some pnone => false
  | some (pstr s) => !(s = "")
  | some (pint n) => !(n = 0)
  | some (plist xs) => !xs.isEmpty
  | some (pdict kvs) => !kvs.isEmpty

/-- `d[k] = v` on a Python dict: an existing key is updated in place, a new
key is appended at the end (CPython insertion-order semantics). -/
def setKey (kvs : List (String × PyVal)) (k : String) (v : PyVal) :
    List (String × PyVal) :=
  match kvs with
  | [] => [(k, v)]
  | (k', v') :: rest =>
      if k' = k then (k', v) :: rest else (k', v') :: setKey rest k v

/-- `str(v)` restricted to the value shapes the composer actually formats
(strings and ints; other shapes do not occur in the settled claims). -/
def pyStr : PyVal → String
  | pstr s => s
  | pint n => toString n
  | pnone => "None"
  | plist _ => "[...]"
  | pdict _ => "\x7b...\x7d"

end PyVal

open PyVal

/-! ## Verifier stage (src/agents/verifier_agent.py, lines 46-65)

`verifier_agent` parses the LLM response with `yaml.safe_load` and then
extracts the `verified` collection with no filtering whatsoever; the result is
returned as `VerifierResponse(verified=...)` and merged into the pipeline
state consumed by the composer. -/

/-- Lines 56-63 of `verifier_agent.py`: extraction of the verified items from
the parsed LLM response `data`. -/
def extractVerified (data : PyVal) : PyVal :=
  match data with
  | pdict kvs =>
      match lookup "verified" kvs with
      | some v => v
      | none => plist [data]
  | plist xs => plist xs
  | _ => plist []

/-! ## Composer stage (src/agents/composer_agent.py)

The composer builds one Markdown table row per verified item
(`computed_rows`, lines 54-78), embeds the table in the prompt, sends a single
system message to the LLM, and returns the raw response text as the report
(lines 97-104).  No redaction is applied anywhere in the function. -/

/-- `"s".strip(":")`: strip leading and trailing `:` characters. -/
def stripColons (s : String) : String :=
  String.mk ((s.data.dropWhile (· = ':')).reverse.dropWhile (· = ':')).reverse

/-- `_format_evidence` (composer_agent.py lines 33-45). -/
def formatEvidence (r : PyVal) : String :=
  let ev : List PyVal :=
    match r.pyGet "evidence" with
    | some (plist xs) => xs
    | _ => []    -- `r.get("evidence", []) or []` for absent / falsy values
  let parts : List String := ev.filterMap (fun e =>
    let file := match e.pyGet "file" with
      | some (pstr s) => s
      | _ => ""     -- `e.get("file") or ""`
    let lines := match e.pyGet "lines" with
      | some (pstr s) => s
      | _ => ""
    if file ≠ "" ∨ lines ≠ "" then some (stripColons (file ++ ":" ++ lines))
    else none)
  let cell := String.intercalate "; " (parts.filter (· ≠ ""))
  let cell :=
    match r.pyGet "thread_id" with
    | some t =>
        if truthy (some t) then
          if cell = "" then "(" ++ pyStr t ++ ")"
          else cell ++ " (" ++ pyStr t ++ ")"
        else cell
    | none => cell
  if cell = "" then "n/a" else cell

/-- `_format_conf_score` (composer_agent.py lines 47-52).  Scores are ints in
this model; Python accepts ints and floats there (`round(sc, 2)` of an int is
the int itself). -/
def formatConfScore (r : PyVal) : String :=
  let conf := match r.pyGet "confidence" with
    | some (pstr s) => s
    | _ => ""       -- `r.get("confidence") or ""`
  match r.pyGet "score" with
  | some (pint n) => conf ++ " / " ++ toString n
  | _ => conf     -- `return conf or ""` -- conf is already "" when falsy

/-- The string field helper `(r.get(k) or "")` used for the remaining cells. -/
def strField (r : PyVal) (k : String) : String :=
  match r.pyGet k with
  | some (pstr s) => s
  | _ => ""

/-- Python `str.upper()` (ASCII model; labels are ASCII). -/
def pyUpper (s : String) : String := String.mk (s.data.map Char.toUpper)

/-- One row of `computed_rows` (composer_agent.py lines 56-66). -/
def composerRow (r : PyVal) : String :=
  "| " ++ pyUpper (strField r "label") ++ " | " ++ strField r "title" ++
  " | " ++ strField r "reason" ++ " | " ++ strField r "owner_hint" ++
  " | " ++ strField r "next_step" ++ " | " ++ formatEvidence r ++
  " | " ++ formatConfScore r ++ " |"

/-- `computed_rows`: the composer builds exactly one table row per item of
`state["verified"]`, with no filtering. -/
def composerComputedRows (verified : List PyVal) : List String :=
  verified.map composerRow

/-- `computed_table` (composer_agent.py lines 68-78). -/
def composerComputedTable (verified : List PyVal) : String :=
  let rows := composerComputedRows verified
  if rows.isEmpty then ""
  else String.intercalate "\n"
    (["| Type | Title | Why it matters | Owner | Next step | Evidence | Conf/Score |",
      "|------|-------|----------------|-------|-----------|----------|------------|"]
      ++ rows)

/-- Python `"_".replace("_", " ")`. -/
def replaceUnderscores (s : String) : String :=
  String.mk (s.data.map (fun c => if c = '_' then ' ' else c))

/-- Python `str.title()`: alphabetic characters following a non-alphabetic
character are uppercased, the rest lowercased. -/
def pyTitleAux : Bool → List Char → List Char
  | _, [] => []
  | prevAlpha, c :: rest =>
      if c.isAlpha then
        (if prevAlpha then c.toLower else c.toUpper) :: pyTitleAux true rest
      else c :: pyTitleAux false rest

def pyTitle (s : String) : String := String.mk (pyTitleAux false s.data)

/-- The enhanced system prompt (composer_agent.py lines 81-89): base system
prompt, then the report templates, then the formatting rules. -/
def composerEnhancedSystemPrompt (sysPrompt : String)
    (templates : List (String × String)) (rules : List (String × PyVal)) :
    String :=
  let base := sysPrompt ++ "\n\n## Report Templates\n"
  let withTemplates := templates.foldl (fun acc (t : String × String) =>
    acc ++ "\n### " ++ pyTitle (replaceUnderscores t.1) ++ " Template\n" ++ t.2)
    base
  let withRules := rules.foldl (fun acc (rv : String × PyVal) =>
    acc ++ "- **" ++ pyTitle (replaceUnderscores rv.1) ++ "**: " ++
      pyStr rv.2 ++ "\n")
    (withTemplates ++ "\n\n## Formatting Rules\n")
  withRules

/-- `composer_input` (composer_agent.py lines 91-95): the single system
message content sent to the LLM. -/
def composerInput (sysPrompt prompt : String)
    (templates : List (String × String)) (rules : List (String × PyVal))
    (verified : List PyVal) : String :=
  let base := composerEnhancedSystemPrompt sysPrompt templates rules ++
    "\n\n" ++ prompt
  let table := composerComputedTable verified
  if table ≠ "" then
    base ++ "\n\n## Precomputed cells (use exactly in the Risk Details table)\n"
      ++ table ++ "\n"
  else base

/-- `composer_agent` result (composer_agent.py lines 97-104): the report is
the raw LLM response for the composed input, returned unchanged.  The LLM is
the external collaborator `invoke(messages) -> text`, passed as `llm`. -/
def composerReport (llm : String → String) (sysPrompt prompt : String)
    (templates : List (String × String)) (rules : List (String × PyVal))
    (verified : List PyVal) : String :=
  llm (composerInput sysPrompt prompt templates rules verified)

/-! ## Analyzer stage chunk budget (src/agents/analyzer_agent.py, lines 25-29)

`max_evidence = min(6, getattr(config.retrieval, "top_k", 6) or 6)` and the
chunk list is sliced to `base_chunks[:max_evidence]` when longer.  `top_k` is
an `int`; `0` is falsy in Python, which makes the `or 6` fall back to 6. -/

/-- `min(6, top_k or 6)` with Python truthiness of the int. -/
def analyzerMaxEvidence (topK : Int) : Int :=
  min 6 (if topK = 0 then 6 else topK)

/-- Python `xs[:k]` for an arbitrary (possibly negative) int `k`. -/
def pySliceTo (xs : List PyVal) (k : Int) : List PyVal :=
  if 0 ≤ k then xs.take k.toNat
  else xs.take (((xs.length : Int) + k).toNat)

/-- analyzer_agent.py lines 26-29: the chunk list actually considered. -/
def analyzerBaseChunks (chunks : List PyVal) (topK : Int) : List PyVal :=
  let maxEv := analyzerMaxEvidence topK
  if (chunks.length : Int) > maxEv then pySliceTo chunks maxEv else chunks

/-! ## PII redactor (src/ingestion/pii.py)

`PIIRedactor.redact_text` applies six compiled patterns with `re.sub` in a
fixed order (email, phone, id, card, ip, url) and then, when a known-people
registry is present, a names pattern built from the registry.  The matchers
below implement exactly those patterns with Python `re` semantics: leftmost
match, greedy quantifiers with backtracking, alternation tried left to right.
`re.sub` matches only against the input string (replacement text is never
rescanned within one `sub` call).  Python's `\d` is Unicode-aware (decimal
digits, category Nd) and is modelled exactly, as a codepoint range table
extracted from the `re` engine itself.  `\s`/`\w`/`\b` are modelled over
their ASCII cores, which is exact for every input that appears in a settled
theorem; no theorem's truth rests on their behaviour outside ASCII, because
each pattern also demands a `\d` digit, an `@` or a `:` that the relevant
hypotheses exclude. -/

/-- ASCII core of Python `\s`. -/
def pySpace (c : Char) : Bool :=
  c = ' ' ∨ c = '\t' ∨ c = '\n' ∨ c = '\r' ∨ c = '\x0b' ∨ c = '\x0c'

/-- ASCII core of Python `\w` (used by `\b`). -/
def pyWord (c : Char) : Bool := c.isAlphanum ∨ c = '_'

/-- The non-ASCII codepoint ranges (inclusive bounds) matched by Python's
Unicode-aware `\d`: the decimal digits of every script (category Nd) above
ASCII.  The first such codepoint is 1632 (Arabic-Indic zero). -/
def ndHighRanges : List (Nat × Nat) :=
  [(1632, 1641), (1776, 1785), (1984, 1993), (2406, 2415),
   (2534, 2543), (2662, 2671), (2790, 2799), (2918, 2927),
   (3046, 3055), (3174, 3183), (3302, 3311), (3430, 3439),
   (3558, 3567), (3664, 3673), (3792, 3801), (3872, 3881),
   (4160, 4169), (4240, 4249), (6112, 6121), (6160, 6169),
   (6470, 6479), (6608, 6617), (6784, 6793), (6800, 6809),
   (6992, 7001), (7088, 7097), (7232, 7241), (7248, 7257),
   (42528, 42537), (43216, 43225), (43264, 43273), (43472, 43481),
   (43504, 43513), (43600, 43609), (44016, 44025), (65296, 65305),
   (66720, 66729), (68912, 68921), (69734, 69743), (69872, 69881),
   (69942, 69951), (70096, 70105), (70384, 70393), (70736, 70745),
   (70864, 70873), (71248, 71257), (71360, 71369), (71472, 71481),
   (71904, 71913), (72016, 72025), (72784, 72793), (73040, 73049),
   (73120, 73129), (92768, 92777), (92864, 92873), (93008, 93017),
   (120782, 120831), (123200, 123209), (123632, 123641), (125264, 125273),
   (130032, 130041)]

/-- Python `\d`: a Unicode decimal digit.  Below 1632 the only decimal
digits are ASCII `0`-`9`, so the first branch is exact there; above, the
range table decides. -/
def isDigitC (c : Char) : Bool :=
  if c.toNat < 1632 then c.isDigit
  else ndHighRanges.any (fun r => r.1 ≤ c.toNat && c.toNat ≤ r.2)

/-- `[^<>\s()]` (local part of the e-mail pattern). -/
def localC (c : Char) : Bool :=
  !(c = '<' ∨ c = '>' ∨ c = '(' ∨ c = ')' ∨ pySpace c)

/-- `[A-Za-z0-9.\-]` (domain of the e-mail pattern). -/
def domC (c : Char) : Bool := c.isAlphanum ∨ c = '.' ∨ c = '-'

/-- `[A-Za-z]`. -/
def alphaC (c : Char) : Bool := c.isAlpha

/-- `[\s-]` (phone separators). -/
def sepC (c : Char) : Bool := pySpace c ∨ c = '-'

/-- `[A-Z]`. -/
def upperC (c : Char) : Bool := c.isUpper

/-- `[^\s]` (URL tail). -/
def notSpaceC (c : Char) : Bool := !pySpace c

/-- All ways a greedy character-class repetition `p{lo,hi}` (hi = none for
unbounded) can consume a prefix of `s`, in Python backtracking priority order
(longest first).  Returns (consumed length, rest) pairs. -/
def charRun (p : Char → Bool) : Nat → Option Nat → List Char →
    List (Nat × List Char)
  | lo, _, [] => if lo = 0 then [(0, [])] else []
  | lo, hi, c :: s =>
      (if p c ∧ hi ≠ some 0 then
        (charRun p (lo - 1) (hi.map (· - 1)) s).map
          (fun nr => (nr.1 + 1, nr.2))
      else []) ++
      (if lo = 0 then [(0, c :: s)] else [])

/-- Greedy optional single character from a class (`X?`): consume first,
then the empty alternative. -/
def optCls (p : Char → Bool) (s : List Char) : List (Nat × List Char) :=
  charRun p 0 (some 1) s

/-- A greedy optional literal-string alternation (`(A|B)?`): alternatives in
order, then the empty match. -/
def optLits (lits : List (List Char)) (s : List Char) :
    List (Nat × List Char) :=
  (lits.filterMap (fun l =>
    if l.isPrefixOf s then some (l.length, s.drop l.length) else none)) ++
  [(0, s)]

/-- Word-boundary test between an optional previous character and an optional
next character (Python `\b`). -/
def wordBoundary (prev next : Option Char) : Bool :=
  (match prev with | none => false | some c => pyWord c) ≠
  (match next with | none => false | some c => pyWord c)

/-- `[^<>\s()]+@[A-Za-z0-9.\-]+\.[A-Za-z]{2,}` at one position; returns the
matched length of the first (priority-ordered) successful alternative. -/
def emailMatchAt (_prev : Option Char) (s : List Char) : Option Nat :=
  (charRun localC 1 none s).findSome? fun n1r =>
    match n1r.2 with
    | '@' :: r2 =>
        (charRun domC 1 none r2).findSome? fun n3r =>
          match n3r.2 with
          | '.' :: r4 =>
              (charRun alphaC 2 none r4).findSome? fun n5r =>
                some (n1r.1 + 1 + n3r.1 + 1 + n5r.1)
          | _ => none
    | _ => none

/-- `(\+36|06)?[\s-]?(\d{1,2})[\s-]?(\d{3})[\s-]?(\d{3,4})` at one position. -/
def phoneMatchAt (_prev : Option Char) (s : List Char) : Option Nat :=
  (optLits [['+', '3', '6'], ['0', '6']] s).findSome? fun ar =>
    (optCls sepC ar.2).findSome? fun br =>
      (charRun isDigitC 1 (some 2) br.2).findSome? fun cr =>
        (optCls sepC cr.2).findSome? fun dr =>
          (charRun isDigitC 3 (some 3) dr.2).findSome? fun er =>
            (optCls sepC er.2).findSome? fun fr =>
              (charRun isDigitC 3 (some 4) fr.2).findSome? fun gr =>
                some (ar.1 + br.1 + cr.1 + dr.1 + er.1 + fr.1 + gr.1)

/-- `\b\d{6}[A-Z]{2}\d{2}[A-Z]{2}\d{3}\b` at one position. -/
def idMatchAt (prev : Option Char) (s : List Char) : Option Nat :=
  if !wordBoundary prev s.head? then none
  else
    (charRun isDigitC 6 (some 6) s).findSome? fun ar =>
      (charRun upperC 2 (some 2) ar.2).findSome? fun br =>
        (charRun isDigitC 2 (some 2) br.2).findSome? fun cr =>
          (charRun upperC 2 (some 2) cr.2).findSome? fun dr =>
            (charRun isDigitC 3 (some 3) dr.2).findSome? fun er =>
              if wordBoundary (some '0') er.2.head? then    -- last matched char is a digit (a word char)
                some (ar.1 + br.1 + cr.1 + dr.1 + er.1)
              else none

/-- `\b\d{4}[\s-]?\d{4}[\s-]?\d{4}[\s-]?\d{4}\b` at one position. -/
def cardMatchAt (prev : Option Char) (s : List Char) : Option Nat :=
  if !wordBoundary prev s.head? then none
  else
    (charRun isDigitC 4 (some 4) s).findSome? fun ar =>
      (optCls sepC ar.2).findSome? fun br =>
        (charRun isDigitC 4 (some 4) br.2).findSome? fun cr =>
          (optCls sepC cr.2).findSome? fun dr =>
            (charRun isDigitC 4 (some 4) dr.2).findSome? fun er =>
              (optCls sepC er.2).findSome? fun fr =>
                (charRun isDigitC 4 (some 4) fr.2).findSome? fun gr =>
                  if wordBoundary (some '0') gr.2.head? then
                    some (ar.1 + br.1 + cr.1 + dr.1 + er.1 + fr.1 + gr.1)
                  else none

/-- `\b\d{1,3}\.\d{1,3}\.\d{1,3}\.\d{1,3}\b` at one position. -/
def ipMatchAt (prev : Option Char) (s : List Char) : Option Nat :=
  if !wordBoundary prev s.head? then none
  else
    (charRun isDigitC 1 (some 3) s).findSome? fun ar =>
      match ar.2 with
      | '.' :: r1 =>
          (charRun isDigitC 1 (some 3) r1).findSome? fun br =>
            match br.2 with
            | '.' :: r2 =>
                (charRun isDigitC 1 (some 3) r2).findSome? fun cr =>
                  match cr.2 with
                  | '.' :: r3 =>
                      (charRun isDigitC 1 (some 3) r3).findSome? fun dr =>
                        if wordBoundary (some '0') dr.2.head? then
                          some (ar.1 + 1 + br.1 + 1 + cr.1 + 1 + dr.1)
                        else none
                  | _ => none
            | _ => none
      | _ => none

/-- `https?://[^\s]+` at one position. -/
def urlMatchAt (_prev : Option Char) (s : List Char) : Option Nat :=
  if ['h', 't', 't', 'p'].isPrefixOf s then
    (optCls (· = 's') (s.drop 4)).findSome? fun ar =>
      if [':', '/', '/'].isPrefixOf ar.2 then
        (charRun notSpaceC 1 none (ar.2.drop 3)).findSome? fun br =>
          some (4 + ar.1 + 3 + br.1)
      else none
  else none

/-- Known-names alternation (a list of literal alternatives in regex priority
order) at one position. -/
def namesMatchAt (lits : List (List Char)) (_prev : Option Char)
    (s : List Char) : Option Nat :=
  lits.findSome? fun l =>
    if l.isPrefixOf s ∧ l ≠ [] then some l.length else none

/-- `re.sub(pattern, repl, s)`: scan left to right, try the matcher at every
position, replace each (necessarily non-empty for the patterns above) match
and resume after it.  Matching sees only original characters; `prev` is the
original character immediately before the current position (for `\b`). -/
def subRunAux (matchAt : Option Char → List Char → Option Nat)
    (repl : List Char) : Nat → Option Char → List Char → List Char
  | _, _, [] => []
  | 0, _, s => s
  | fuel + 1, prev, c :: rest =>
      match matchAt prev (c :: rest) with
      | some n =>
          if 0 < n then
            repl ++ subRunAux matchAt repl fuel ((c :: rest).take n).getLast?
              ((c :: rest).drop n)
          else c :: subRunAux matchAt repl fuel (some c) rest
      | none => c :: subRunAux matchAt repl fuel (some c) rest

def subRun (matchAt : Option Char → List Char → Option Nat)
    (repl : List Char) (prev : Option Char) (s : List Char) : List Char :=
  subRunAux matchAt repl s.length prev s

/-- One registry person (`{person_id, name, role, email}` string fields). -/
abbrev Person := List (String × String)

/-- Known-people registry: email address to person record, as built by
`parse_colleagues`. -/
abbrev KnownPeople := List (String × Person)

def personName (p : Person) : Option String :=
  match p.lookup "name" with
  | some n => if n = "" then none else some n    -- `if not name: continue`
  | none => none

/-- Python `str.split()`: the maximal non-whitespace runs. -/
def pySplitWsAux : Nat → List Char → List String
  | _, [] => []
  | 0, _ => []
  | fuel + 1, c :: rest =>
      if pySpace c then pySplitWsAux fuel rest
      else
        String.mk ((c :: rest).takeWhile (fun c => !pySpace c)) ::
          pySplitWsAux fuel ((c :: rest).dropWhile (fun c => !pySpace c))

def pySplitWs (s : String) : List String := pySplitWsAux s.data.length s.data

/-- Stable insertion sort (the model of Python's stable `sorted` /
`list.sort`): `x` is inserted before the first element `y` with `le x y`,
so elements that compare equal keep their original order. -/
def insertBy {α : Type} (le : α → α → Bool) (x : α) : List α → List α
  | [] => [x]
  | y :: ys => if le x y then x :: y :: ys else y :: insertBy le x ys

def stableSortBy {α : Type} (le : α → α → Bool) : List α → List α
  | [] => []
  | x :: xs => insertBy le x (stableSortBy le xs)

/-- Stable sort by length, longest first (`sorted(xs, key=len, reverse=True)`;
Python's sort is stable). -/
def sortByLenDesc (xs : List String) : List String :=
  stableSortBy (fun a b => decide (b.length ≤ a.length)) xs

/-- First-occurrence deduplication.  Python builds `set(name_tokens)` whose
iteration order is unspecified; only the membership matters downstream
(the sort key is the length), so first-occurrence order is a faithful
deterministic choice. -/
def dedupFirst (xs : List String) : List String :=
  xs.foldl (fun acc x => if x ∈ acc then acc else acc ++ [x]) []

/-- The literal alternatives of `_known_names_regex`
(pii.py `__init__`, lines 34-57): full names sorted longest-first, then the
deduplicated name tokens of length ≥ 3 sorted longest-first.  Empty when the
registry yields no names (`_known_names_regex is None`). -/
def knownNameLits (kp : KnownPeople) : List (List Char) :=
  let names := kp.filterMap (fun ep => personName ep.2)
  let tokens := (names.map pySplitWs).flatten.filter (fun t => 3 ≤ t.length)
  let lits := sortByLenDesc names ++ sortByLenDesc (dedupFirst tokens)
  lits.map String.data

/-- `PIIRedactor.redact_text` (pii.py lines 59-94): the six built-in patterns
in source order, then the known-names pattern when the registry provides
one.  (`if not text: return text` is the empty-string identity, already
implied by the scanners.) -/
def redactText (kp : KnownPeople) (text : String) : String :=
  let r := text.data
  let r := subRun emailMatchAt "[EMAIL]".data none r
  let r := subRun phoneMatchAt "[PHONE]".data none r
  let r := subRun idMatchAt "[ID]".data none r
  let r := subRun cardMatchAt "[CARD]".data none r
  let r := subRun ipMatchAt "[IP]".data none r
  let r := subRun urlMatchAt "[URL]".data none r
  let lits := knownNameLits kp
  let r := if lits.isEmpty then r
    else subRun (namesMatchAt lits) "[NAME]".data none r
  String.mk r

/-! ## `PIIRedactor.redact_email_data` (pii.py lines 96-156)

The Python function starts from `redacted = email_data.copy()` — a *shallow*
copy: the top-level dict is new, but the values (in particular the
`to_recipients` / `cc_recipients` lists and the recipient dicts inside them)
are the same objects as in the argument.  All sender/subject/body writes go
through the new top-level dict and are invisible in the argument, but the
recipient loops write `recipient["name"]`, `recipient["person_id"]` and
`recipient["email"]` into the shared nested dicts, so those writes are
visible through the argument as well.  The embedding makes the aliasing
explicit by returning the pair (returned copy, argument after the call).
Inputs on which Python would raise (a non-list recipients value, a non-dict
recipient, a truthy non-string subject/body) yield `none`. -/

/-- The per-recipient mutation performed by the loops in lines 122-144. -/
def redactRecipient (kp : KnownPeople) (r : List (String × PyVal)) :
    List (String × PyVal) :=
  let origEmail := lookup "email" r
  let r' :=
    match origEmail with
    | some (pstr em) =>
        if em ≠ "" then
          match kp.lookup em with
          | some person =>
              let pid := (person.lookup "person_id").getD "[NAME]"
              setKey (setKey r "name" (pstr pid)) "person_id" (pstr pid)
          | none => setKey r "name" (pstr "[NAME]")
        else setKey r "name" (pstr "[NAME]")
    | _ => setKey r "name" (pstr "[NAME]")
  if (lookup "email" r).isSome then setKey r' "email" (pstr "[EMAIL]") else r'

/-- In-place mutation of a (shared) recipients list object.  `none` models
the exceptions Python raises when the value is not a list of dicts. -/
def mutateRecipList (kp : KnownPeople) : PyVal → Option PyVal
  | PyVal.plist xs =>
      (xs.mapM fun x =>
        match x with
        | PyVal.pdict kvs => some (PyVal.pdict (redactRecipient kp kvs))
        | _ => none).map PyVal.plist
  | _ => none

/-- The effect of `redact_email_data` on its *argument*: the recipient loops
write through the nested dict objects that the shallow copy shares with the
argument, so after the call the argument's `to_recipients` /
`cc_recipients` values hold the redacted recipients; no other field of the
argument is written. -/
def recipientsMutated (kp : KnownPeople) (kvs : List (String × PyVal)) :
    Option (List (String × PyVal)) :=
  let step1 : Option (List (String × PyVal)) :=
    match lookup "to_recipients" kvs with
    | none => some kvs
    | some v => (mutateRecipList kp v).map (setKey kvs "to_recipients")
  match step1 with
  | none => none
  | some a1 =>
      match lookup "cc_recipients" kvs with
      | none => some a1
      | some v => (mutateRecipList kp v).map (setKey a1 "cc_recipients")

/-- The *returned copy* of `redact_email_data`: the sender block
(lines 109-119), the shared recipient mutations (lines 121-144), and the
subject/canonical_subject/body redaction (lines 146-154), all written into
the copied top-level dict.  A truthy non-string subject/body (on which
`redact_text` raises) yields `none`. -/
def copyResult (kp : KnownPeople) (kvs : List (String × PyVal)) :
    Option (List (String × PyVal)) :=
  let r0 :=
    if (lookup "sender_email" kvs).isSome then
      let r := setKey kvs "sender_email" (pstr "[EMAIL]")
      let known :=
        match lookup "sender_email" kvs with
        | some (pstr em) => if em = "" then none else kp.lookup em
        | _ => none
      match known with
      | some person =>
          let pid := (person.lookup "person_id").getD "[NAME]"
          setKey (setKey r "sender_name" (pstr pid))
            "sender_person_id" (pstr pid)
      | none =>
          setKey (setKey r "sender_name" (pstr "[NAME]"))
            "sender_person_id" (pstr "[PERSON]")
    else kvs
  let r1? : Option (List (String × PyVal)) :=
    match lookup "to_recipients" kvs with
    | none => some r0
    | some v => (mutateRecipList kp v).map (setKey r0 "to_recipients")
  match r1? with
  | none => none
  | some r1 =>
    let r2? : Option (List (String × PyVal)) :=
      match lookup "cc_recipients" kvs with
      | none => some r1
      | some v => (mutateRecipList kp v).map (setKey r1 "cc_recipients")
    match r2? with
    | none => none
    | some r2 =>
      let r3? :=
        match lookup "subject" kvs with
        | some (pstr s) =>
            if s = "" then some r2
            else some (setKey r2 "subject" (pstr (redactText kp s)))
        | some v => if truthy (some v) then none else some r2
        | none => some r2
      match r3? with
      | none => none
      | some r3 =>
        let r4? :=
          match lookup "canonical_subject" kvs with
          | some (pstr s) =>
              if s = "" then some r3
              else some (setKey r3 "canonical_subject"
                (pstr (redactText kp s)))
          | some v => if truthy (some v) then none else some r3
          | none => some r3
        match r4? with
        | none => none
        | some r4 =>
          match lookup "body" kvs with
          | some (pstr s) =>
              some (setKey r4 "body" (pstr (redactText kp s)))
          | some v =>
              if truthy (some v) then none
              else some (setKey r4 "body" v)
          | none => some r4

/-- `redact_email_data`, returning (the returned copy, the argument after
the call).  The two components share exactly the mutated recipient lists;
`none` models the exceptions (on which the Python caller sees no return
value).  A non-dict argument raises (`.copy()`), hence `none`. -/
def redactEmailData (kp : KnownPeople) (e : PyVal) :
    Option (PyVal × PyVal) :=
  match e with
  | PyVal.pdict kvs =>
      match copyResult kp kvs, recipientsMutated kp kvs with
      | some r, some a => some (PyVal.pdict r, PyVal.pdict a)
      | _, _ => none
  | _ => none

/-! ## Chunker (src/ingestion/chunker.py)

`EmailChunker.create_chunks_from_thread` reads the original source file (an
external effect, passed here as `readFile`; `none` models
`FileNotFoundError`), flattens the thread into one text stream, splits it
into sentence-like units and greedily accumulates them into chunks.  The dead
stores to `chunk_start_line` (lines 150 and 204-207 of chunker.py, both
overwritten before any use) are omitted. -/

structure EmailD where
  sender_name : Option String := none
  sender_role : Option String := none
  date : Option String := none
  subject : Option String := none
  /-- recipient dicts; the chunker header only reads `r.get('name', 'Unknown')`. -/
  to_recipients : List (List (String × String)) := []
  body : Option String := none
  deriving DecidableEq, Repr

structure ThreadData where
  thread_id : Option String := none
  file_path : Option String := none
  total_emails : Option Int := none
  participants : List String := []
  subject : Option String := none
  canonical_subject : Option String := none
  start_date : Option String := none
  end_date : Option String := none
  emails : List EmailD := []
  deriving DecidableEq, Repr

/-- A produced chunk together with the metadata fields built in chunker.py
lines 179-196 / 225-242 (`m_` prefixes the entries of the metadata dict). -/
structure LChunk where
  text : String
  chunk_id : String
  file : String
  line_start : Nat
  line_end : Nat
  thread_id : String
  m_total_emails : Int
  m_participants : List String
  m_subject : String
  m_canonical_subject : String
  m_start_date : String
  m_end_date : String
  m_chunk_size : Nat
  m_sentence_count : Nat
  deriving DecidableEq, Repr

/-- `estimate_tokens`: `len(text) // 4`. -/
def estimateTokens (s : String) : Nat := s.length / 4

/-- Python `str.strip()` (ASCII whitespace model). -/
def pyStrip (s : String) : String :=
  String.mk (((s.data.dropWhile pySpace).reverse.dropWhile pySpace).reverse)

/-- Helper: `dropWhile` never lengthens a list. -/
theorem dropWhileLenLe (p : Char → Bool) (xs : List Char) :
    (xs.dropWhile p).length ≤ xs.length := by
  induction xs with
  | nil => simp
  | cons c cs ih =>
      by_cases h : p c <;> simp [List.dropWhile, h] <;> omega

/-- `re.split(r'(?<=[.!?])\s+', text)`: cut at every maximal whitespace run
that directly follows `.`, `!` or `?`. -/
def splitAfterPunctAux : Nat → Option Char → List Char → List Char →
    List (List Char)
  | _, _, [], acc => [acc.reverse]
  | 0, _, s, acc => [acc.reverse ++ s]
  | fuel + 1, prev, c :: rest, acc =>
      if (prev = some '.' ∨ prev = some '!' ∨ prev = some '?') ∧ pySpace c
      then
        acc.reverse ::
          splitAfterPunctAux fuel (some ' ') ((c :: rest).dropWhile pySpace) []
      else splitAfterPunctAux fuel (some c) rest (c :: acc)

def splitAfterPunct (prev : Option Char) (s acc : List Char) :
    List (List Char) :=
  splitAfterPunctAux s.length prev s acc

/-- `re.split(r',\s+', sentence)`: cut at every comma directly followed by a
(maximal) whitespace run. -/
def commaSplitAux : Nat → List Char → List Char → List (List Char)
  | _, [], acc => [acc.reverse]
  | 0, s, acc => [acc.reverse ++ s]
  | fuel + 1, c :: rest, acc =>
      if c = ',' ∧ (match rest.head? with
        | some c' => pySpace c'
        | none => false : Bool) = true then
        acc.reverse :: commaSplitAux fuel (rest.dropWhile pySpace) []
      else commaSplitAux fuel rest (c :: acc)

def commaSplit (s acc : List Char) : List (List Char) :=
  commaSplitAux s.length s acc

/-- `str.startswith` over the character lists. -/
def strStartsWith (s pre : String) : Bool := pre.data.isPrefixOf s.data

/-- `re.match(r'^(From|To|Cc|Date|Subject):', s)` as a boolean. -/
def isHeaderUnit (s : String) : Bool :=
  strStartsWith s "From:" ∨ strStartsWith s "To:" ∨ strStartsWith s "Cc:" ∨
  strStartsWith s "Date:" ∨ strStartsWith s "Subject:"

/-- `split_into_sentences` (chunker.py lines 42-70). -/
def splitIntoSentences (text : String) : List String :=
  let units := (splitAfterPunct none text.data []).map String.mk
  let result := units.flatMap fun s =>
    if isHeaderUnit s then [s]
    else if 200 < s.length then (commaSplit s.data []).map String.mk
    else [s]
  (result.map pyStrip).filter (· ≠ "")

/-- Email boundaries in the original file (chunker.py lines 96-108):
(start line, end line) pairs, 0-based; the end of the last email is
`len(lines) - 1`. -/
def emailBoundaries (lines : List String) : List (Nat × Int) :=
  let st := lines.enum.foldl
    (fun (st : List (Nat × Int) × Option Nat) il =>
      if strStartsWith il.2 "From:" then
        match st.2 with
        | some cur => (st.1 ++ [(cur, (il.1 : Int) - 1)], some il.1)
        | none => (st.1, some il.1)
      else st)
    ([], none)
  match st.2 with
  | some cur => st.1 ++ [(cur, (lines.length : Int) - 1)]
  | none => st.1

/-- One entry of `email_line_mappings`. -/
structure EMap where
  start_line : Nat
  /-- recorded but never read by the position mapper; `-1` when the file is
  empty or missing. -/
  end_line : Int
  content_start : Nat
  deriving DecidableEq, Repr

/-- The header block prepended for each email (chunker.py lines 131-134). -/
def emailHeader (em : EmailD) : String :=
  "From: " ++ em.sender_name.getD "Unknown" ++ " [" ++
    em.sender_role.getD "Unknown" ++ "]\n" ++
  "To: " ++ String.intercalate ", "
    (em.to_recipients.map (fun r => (r.lookup "name").getD "Unknown")) ++
    "\n" ++
  "Date: " ++ em.date.getD "Unknown" ++ "\n" ++
  "Subject: " ++ em.subject.getD "Unknown" ++ "\n\n"

/-- One iteration of the email loop of chunker.py lines 115-142: appends the
email's header and body to `full_text`, records its line mapping, and
advances `current_line_offset` by 5 (header) plus
`len(body.split('\n')) + 2` (body). -/
def btmStep (bounds : List (Nat × Int)) (numLines : Nat)
    (st : String × List EMap × Nat) (iem : Nat × EmailD) :
    String × List EMap × Nat :=
  let i := iem.1
  let em := iem.2
  let se : Nat × Int :=
    match bounds.get? i with
    | some b => b
    | none => (0, (numLines : Int) - 1)
  let m : EMap := ⟨se.1, se.2, st.2.2⟩
  let body := em.body.getD ""
  let text' := st.1 ++ emailHeader em ++ body ++ "\n\n"
  let off' := st.2.2 + 5 + ((body.data.count '\n') + 1) + 2
  (text', st.2.1 ++ [m], off')

/-- chunker.py lines 110-142: builds `full_text` and `email_line_mappings`. -/
def buildTextAndMaps (bounds : List (Nat × Int)) (numLines : Nat)
    (emails : List EmailD) : String × List EMap :=
  let st := emails.enum.foldl (btmStep bounds numLines) ("", [], 0)
  (st.1, st.2.1)

/-- `map_content_position_to_original_line` (chunker.py lines 152-160): the
first mapping (in list order) whose `content_start` is ≤ the position wins;
with no mappings the result is the fallback 1. -/
def mapContentPos (maps : List EMap) (pos : Nat) : Nat :=
  match maps.find? (fun m => m.content_start ≤ pos) with
  | some m => m.start_line + (pos - m.content_start)
  | none => 1

/-- `sum(len(' '.join(sentences[:j])) + 1 for j in range(m))`
(the `chunk_start_pos` expression of chunker.py lines 172-173, with
`m = len(current_chunk)`). -/
def sumStartPos (sentences : List String) (m : Nat) : Nat :=
  ((List.range m).map
    (fun j => (String.intercalate " " (sentences.take j)).length + 1)).sum

/-- The `final_chunk_start_pos` expression of chunker.py lines 218-219. -/
def finalStartPos (sentences : List String) (curLen : Nat) : Nat :=
  ((String.intercalate " " (sentences.take (sentences.length - curLen))).length
    + 1) * curLen

/-- Python `xs[-n:]`. -/
def takeLast (n : Nat) (xs : List String) : List String :=
  xs.drop (xs.length - n)

/-- `sum(self.estimate_tokens(s) for s in xs)`. -/
def sumEst (xs : List String) : Nat := (xs.map estimateTokens).sum

/-- Assembles one chunk record (common part of chunker.py lines 179-196 and
225-242), given the start position expression already evaluated. -/
def mkChunk (td : ThreadData) (filePath threadId : String)
    (maps : List EMap) (numChunks : Nat) (current : List String)
    (curTok startPos : Nat) : LChunk :=
  let text := String.intercalate " " current
  { text := text
    chunk_id := threadId ++ "_chunk_" ++ toString (numChunks + 1)
    file := filePath
    line_start := mapContentPos maps startPos
    line_end := mapContentPos maps (startPos + text.length)
    thread_id := threadId
    m_total_emails := td.total_emails.getD 0
    m_participants := td.participants
    m_subject := td.subject.getD ""
    m_canonical_subject := td.canonical_subject.getD ""
    m_start_date := td.start_date.getD ""
    m_end_date := td.end_date.getD ""
    m_chunk_size := curTok
    m_sentence_count := current.length }

/-- The accumulation loop of chunker.py lines 162-243 over the sentence
units, carrying (chunks so far, current chunk, current token sum). -/
def chunkLoop (td : ThreadData) (filePath threadId : String)
    (maps : List EMap) (sentences : List String) (chunkSize : Nat) :
    List String → List LChunk → List String → Nat → List LChunk
  | [], chunks, current, curTok =>
      if current.isEmpty then chunks
      else chunks ++ [mkChunk td filePath threadId maps chunks.length current
        curTok (finalStartPos sentences current.length)]
  | s :: rest, chunks, current, curTok =>
      let st := estimateTokens s
      if chunkSize < curTok + st ∧ ¬current.isEmpty then
        let c := mkChunk td filePath threadId maps chunks.length current
          curTok (sumStartPos sentences current.length)
        let overlap := if 3 ≤ current.length then takeLast 3 current
          else current
        let cur' := overlap ++ [s]
        chunkLoop td filePath threadId maps sentences chunkSize rest
          (chunks ++ [c]) cur' (sumEst cur')
      else
        chunkLoop td filePath threadId maps sentences chunkSize rest chunks
          (current ++ [s]) (curTok + st)

/-- The original-file lines seen by `create_chunks_from_thread`: `readFile`
is the filesystem collaborator (`none` = `FileNotFoundError`, handled by
falling back to approximate ranges over no lines). -/
def threadLines (readFile : String → Option (List String)) (td : ThreadData) :
    List String :=
  (readFile (td.file_path.getD "unknown")).getD []

/-- `full_text` and `email_line_mappings` for a thread. -/
def threadTextMaps (readFile : String → Option (List String))
    (td : ThreadData) : String × List EMap :=
  let lines := threadLines readFile td
  buildTextAndMaps (emailBoundaries lines) lines.length td.emails

/-- The sentence units the chunk loop runs over. -/
def threadSentences (readFile : String → Option (List String))
    (td : ThreadData) : List String :=
  splitIntoSentences (threadTextMaps readFile td).1

/-- `create_chunks_from_thread`.  `chunkSize` is the configured token
budget; the configured overlap is stored on the chunker but never read by
this function in the source, hence absent. -/
def createChunksFromThread (readFile : String → Option (List String))
    (chunkSize : Nat) (td : ThreadData) : List LChunk :=
  let threadId := td.thread_id.getD "unknown"
  let filePath := td.file_path.getD "unknown"
  let maps := (threadTextMaps readFile td).2
  let sentences := threadSentences readFile td
  chunkLoop td filePath threadId maps sentences chunkSize sentences [] [] 0

/-- `chunk_threads`: all threads, in order. -/
def chunkThreads (readFile : String → Option (List String))
    (chunkSize : Nat) (tds : List ThreadData) : List LChunk :=
  (tds.map (createChunksFromThread readFile chunkSize)).flatten

/-! ## Vector store incremental upsert (src/retrieval/store.py)

`process_chunks_to_vectorstore` builds a to-upsert plan from a manifest of
content hashes (`compute_chunk_hash` = SHA-256 over
`text + "|" + json.dumps(metadata, sort_keys=True, ensure_ascii=False)`),
embeds and upserts only the planned chunks, and rewrites the manifest entry
of every chunk of the run.  SHA-256 and the JSON serializer are implemented
below so that the hash is the source's actual function. -/

def m32 (x : Nat) : Nat := x % 4294967296

def rotr32 (n x : Nat) : Nat := m32 ((x >>> n) ||| (x <<< (32 - n)))

def bsig0 (x : Nat) : Nat := rotr32 2 x ^^^ rotr32 13 x ^^^ rotr32 22 x
def bsig1 (x : Nat) : Nat := rotr32 6 x ^^^ rotr32 11 x ^^^ rotr32 25 x
def ssig0 (x : Nat) : Nat := rotr32 7 x ^^^ rotr32 18 x ^^^ (x >>> 3)
def ssig1 (x : Nat) : Nat := rotr32 17 x ^^^ rotr32 19 x ^^^ (x >>> 10)
def chF (x y z : Nat) : Nat := (x &&& y) ^^^ ((x ^^^ 4294967295) &&& z)
def majF (x y z : Nat) : Nat := (x &&& y) ^^^ (x &&& z) ^^^ (y &&& z)

def sha256K : List Nat :=
  [1116352408, 1899447441, 3049323471, 3921009573, 961987163,
   1508970993, 2453635748, 2870763221, 3624381080, 310598401,
   607225278, 1426881987, 1925078388, 2162078206, 2614888103,
   3248222580, 3835390401, 4022224774, 264347078, 604807628,
   770255983, 1249150122, 1555081692, 1996064986, 2554220882,
   2821834349, 2952996808, 3210313671, 3336571891, 3584528711,
   113926993, 338241895, 666307205, 773529912, 1294757372,
   1396182291, 1695183700, 1986661051, 2177026350, 2456956037,
   2730485921, 2820302411, 3259730800, 3345764771, 3516065817,
   3600352804, 4094571909, 275423344, 430227734, 506948616,
   659060556, 883997877, 958139571, 1322822218, 1537002063,
   1747873779, 1955562222, 2024104815, 2227730452, 2361852424,
   2428436474, 2756734187, 3204031479, 3329325298]

/-- SHA-256 padding of a byte list. -/
def sha256Pad (msg : List Nat) : List Nat :=
  let l := msg.length
  let k := (55 + 64 - l % 64) % 64
  msg ++ [128] ++ List.replicate k 0 ++
    ((List.range 8).map (fun i => ((l * 8) >>> ((7 - i) * 8)) % 256))

/-- Split into 64-byte blocks.  The first argument is structural-recursion
fuel; the input length always suffices because each step consumes at least
one byte. -/
def blocks64Aux : Nat → List Nat → List (List Nat)
  | _, [] => []
  | 0, bs => [bs]
  | fuel + 1, b :: rest =>
      (b :: rest).take 64 :: blocks64Aux fuel ((b :: rest).drop 64)

def blocks64 (bs : List Nat) : List (List Nat) := blocks64Aux bs.length bs

/-- 16 big-endian 32-bit words of one block. -/
def blockWords (b : List Nat) : List Nat :=
  (List.range 16).map (fun i =>
    (b.getD (4 * i) 0) * 16777216 + (b.getD (4 * i + 1) 0) * 65536 +
    (b.getD (4 * i + 2) 0) * 256 + b.getD (4 * i + 3) 0)

/-- Message schedule: extend 16 words to 64. -/
def sha256Sched (ws : List Nat) : List Nat :=
  (List.range 48).foldl
    (fun ws _ =>
      let n := ws.length
      ws ++ [m32 (ssig1 (ws.getD (n - 2) 0) + ws.getD (n - 7) 0 +
        ssig0 (ws.getD (n - 15) 0) + ws.getD (n - 16) 0)])
    ws

/-- One compression round. -/
def sha256Round (w k : Nat) (st : List Nat) : List Nat :=
  match st with
  | [a, b, c, d, e, f, g, h] =>
      let t1 := m32 (h + bsig1 e + chF e f g + k + w)
      let t2 := m32 (bsig0 a + majF a b c)
      [m32 (t1 + t2), a, b, c, m32 (d + t1), e, f, g]
  | st => st

/-- Process one 64-byte block. -/
def sha256Block (h : List Nat) (b : List Nat) : List Nat :=
  let ws := sha256Sched (blockWords b)
  let st := (List.range 64).foldl
    (fun st i => sha256Round (ws.getD i 0) (sha256K.getD i 0) st) h
  (h.zip st).map (fun p => m32 (p.1 + p.2))

def sha256Init : List Nat :=
  [1779033703, 3144134277, 1013904242, 2773480762,
   1359893119, 2600822924, 528734635, 1541459225]

def hexDigit (n : Nat) : Char :=
  if n < 10 then Char.ofNat (48 + n) else Char.ofNat (87 + n)

def hexByte (b : Nat) : List Char := [hexDigit (b / 16), hexDigit (b % 16)]

/-- `hashlib.sha256(...).hexdigest()` over a byte list. -/
def sha256Hex (msg : List Nat) : String :=
  let hs := (blocks64 (sha256Pad msg)).foldl sha256Block sha256Init
  let bytes := hs.flatMap (fun w =>
    [w / 16777216 % 256, w / 65536 % 256, w / 256 % 256, w % 256])
  String.mk (bytes.flatMap hexByte)

/-- UTF-8 encoding (`str.encode("utf-8")`). -/
def utf8Bytes (c : Char) : List Nat :=
  let n := c.toNat
  if n < 128 then [n]
  else if n < 2048 then [192 ||| (n >>> 6), 128 ||| (n &&& 63)]
  else if n < 65536 then
    [224 ||| (n >>> 12), 128 ||| ((n >>> 6) &&& 63), 128 ||| (n &&& 63)]
  else
    [240 ||| (n >>> 18), 128 ||| ((n >>> 12) &&& 63),
     128 ||| ((n >>> 6) &&& 63), 128 ||| (n &&& 63)]

def strBytes (s : String) : List Nat := (s.data.map utf8Bytes).flatten

/-- JSON string escaping as `json.dumps` does with `ensure_ascii=False`:
`"` and `\` escaped, the named control escapes, other control characters as
`\u00XX`, everything else verbatim. -/
def jsonEscapeChar (c : Char) : List Char :=
  if c = '"' then ['\\', '"']
  else if c = '\\' then ['\\', '\\']
  else if c = '\x08' then ['\\', 'b']
  else if c = '\x0c' then ['\\', 'f']
  else if c = '\n' then ['\\', 'n']
  else if c = '\r' then ['\\', 'r']
  else if c = '\t' then ['\\', 't']
  else if c.toNat < 32 then
    ['\\', 'u', '0', '0', hexDigit (c.toNat / 16), hexDigit (c.toNat % 16)]
  else [c]

def jsonStr (s : String) : String :=
  "\"" ++ String.mk (s.data.flatMap jsonEscapeChar) ++ "\""

/- `json.dumps(v, sort_keys=True, ensure_ascii=False)` with the default
separators `", "` / `": "`.  Dict keys are sorted (Python compares strings
by code point, which is Lean's `String` order as well). -/
mutual

def jsonDumps : PyVal → String
  | PyVal.pstr s => jsonStr s
  | PyVal.pint n => toString n
  | PyVal.pnone => "null"
  | PyVal.plist xs => "[" ++ String.intercalate ", " (jsonList xs) ++ "]"
  | PyVal.pdict kvs =>
      let sorted := stableSortBy (fun a b => decide (a.1 ≤ b.1)) (jsonPairs kvs)
      "\x7b" ++ String.intercalate ", "
        (sorted.map (fun kv => jsonStr kv.1 ++ ": " ++ kv.2)) ++ "\x7d"

def jsonList : List PyVal → List String
  | [] => []
  | x :: xs => jsonDumps x :: jsonList xs

def jsonPairs : List (String × PyVal) → List (String × String)
  | [] => []
  | (k, v) :: rest => (k, jsonDumps v) :: jsonPairs rest

end

/-- `chunk.get("text") or ""` (a truthy non-string text would raise inside
`hashlib`, which does not occur for chunker-produced chunks). -/
def chunkText (ch : PyVal) : String :=
  match ch.pyGet "text" with
  | some (pstr s) => s
  | _ => ""

/-- `chunk.get("metadata") or {}`. -/
def chunkMeta (ch : PyVal) : PyVal :=
  match ch.pyGet "metadata" with
  | some v => if truthy (some v) then v else PyVal.pdict []
  | none => PyVal.pdict []

/-- `VectorStore.compute_chunk_hash` (store.py lines 148-162). -/
def computeChunkHash (ch : PyVal) : String :=
  sha256Hex (strBytes (chunkText ch) ++ [124] ++
    strBytes (jsonDumps (chunkMeta ch)))

/-- `cid = ch.get("id")`, with the `if not cid: continue` falsy test
(a truthy non-string id does not occur for chunker-produced chunks). -/
def chunkIdOf (ch : PyVal) : Option String :=
  match ch.pyGet "id" with
  | some (pstr s) => if s = "" then none else some s
  | _ => none

/-- A manifest entry (`{"hash": ..., "updated_at": ...}`); `hash` is optional
because `prev.get("hash")` tolerates a missing key. -/
structure MEntry where
  hash : Option String
  updated_at : String
  deriving DecidableEq, Repr

/-- The manifest `items` table (JSON object: insertion-ordered string map). -/
abbrev Manifest := List (String × MEntry)

/-- Generic insertion-ordered map write (same semantics as `PyVal.setKey`). -/
def setAssoc {α : Type} (kvs : List (String × α)) (k : String) (v : α) :
    List (String × α) :=
  match kvs with
  | [] => [(k, v)]
  | (k', v') :: rest =>
      if k' = k then (k', v) :: rest else (k', v') :: setAssoc rest k v

/-- The to-upsert plan (store.py lines 301-310): new or changed chunks; only
these are embedded and upserted by `store_chunks`. -/
def buildPlan (incremental : Bool) (items : Manifest) (chunks : List PyVal) :
    List PyVal :=
  chunks.filter fun ch =>
    match chunkIdOf ch with
    | none => false
    | some cid =>
        if ¬incremental then true
        else
          match items.lookup cid with
          | none => true
          | some prev => prev.hash ≠ some (computeChunkHash ch)

/-- One iteration of the manifest rewrite loop (store.py lines 336-343). -/
def umStep (now : String) (items : Manifest) (ch : PyVal) : Manifest :=
  match chunkIdOf ch with
  | none => items
  | some cid => setAssoc items cid ⟨some (computeChunkHash ch), now⟩

/-- The manifest rewrite (store.py lines 335-344): every chunk of the run
gets its entry set to the current hash and timestamp. -/
def updateManifest (items : Manifest) (chunks : List PyVal) (now : String) :
    Manifest :=
  chunks.foldl (umStep now) items

/-- One `process_chunks_to_vectorstore` run over a fixed chunk set (the
upsert/delete calls against Chroma are external; the pair below is the plan
handed to `store_chunks` and the persisted manifest).  `prune_missing` is
false by default and irrelevant to the settled claims. -/
def processRun (incremental : Bool) (items : Manifest) (chunks : List PyVal)
    (now : String) : List PyVal × Manifest :=
  (buildPlan incremental items chunks, updateManifest items chunks now)

/-- The id → content-hash view of a manifest. -/
def hashTable (items : Manifest) : List (String × Option String) :=
  items.map (fun kv => (kv.1, kv.2.hash))

/-! ## Hybrid retriever (src/retrieval/retriever.py)

`keyword_prefilter` scans the stored documents; `semantic_search` embeds the
query and runs the index query (both external — the ranked result lists are
passed in as `QueryRes`), then restricts the ranked lists to the candidate
ids; `retrieve` glues the two and sorts by descending score.  Distances are
modelled as rationals; only ordering and list structure matter to the
claims. -/

structure QueryRes where
  ids : List String
  docs : List String
  metas : List PyVal
  dists : List Rat

/-- Substring test (Python `needle in haystack`). -/
def strContains (hay needle : String) : Bool :=
  (List.range (hay.data.length + 1)).any
    (fun i => needle.data.isPrefixOf (hay.data.drop i))

/-- `re.findall(r"\b\w+\b", s)`: the maximal word-character runs. -/
def wordRunsAux : Nat → List Char → List String
  | _, [] => []
  | 0, _ => []
  | fuel + 1, c :: rest =>
      if pyWord c then
        String.mk ((c :: rest).takeWhile pyWord) ::
          wordRunsAux fuel ((c :: rest).dropWhile pyWord)
      else wordRunsAux fuel rest

def wordRuns (s : List Char) : List String := wordRunsAux s.length s

/-- Python `str.lower()` (ASCII model). -/
def pyLower (s : String) : String := String.mk (s.data.map Char.toLower)

/-- `keyword_prefilter` (retriever.py lines 106-150) over the stored
collection (id, document) pairs.  `query_terms` is a set in Python; only
membership is used, so the run list stands in for it. -/
def keywordPrefilter (stored : List (String × String))
    (keywords : List String) (query : String) : List String :=
  let queryTerms := wordRuns (pyLower query).data
  stored.filterMap fun iddoc =>
    let docLower := pyLower iddoc.2
    let keywordMatches := queryTerms.any (fun t => keywords.contains t)
    let hasQueryTerms := queryTerms.any (fun t => strContains docLower t)
    let hasKeywords := keywords.any (fun kw => strContains docLower kw)
    if hasQueryTerms ∨ hasKeywords ∨ keywordMatches then some iddoc.1
    else none

/-- The candidate filter of `semantic_search` (retriever.py lines 211-233):
with a truthy candidate list, the ranked result lists are restricted to the
positions whose id is a candidate (cut to `top_k`); with no overlap, all
four lists are emptied. -/
def applyCandidateFilter (qr : QueryRes) (cands : List String) (topK : Nat) :
    QueryRes :=
  let keep := (List.range qr.ids.length).filter
    (fun i => cands.contains (qr.ids.getD i ""))
  if ¬keep.isEmpty then
    let cut := min keep.length topK
    { ids := ((keep.filterMap (fun i => qr.ids.get? i)).take cut)
      docs := ((keep.filterMap (fun i => qr.docs.get? i)).take cut)
      metas := ((keep.filterMap (fun i => qr.metas.get? i)).take cut)
      dists := ((keep.filterMap (fun i => qr.dists.get? i)).take cut) }
  else { ids := [], docs := [], metas := [], dists := [] }

/-- One formatted search result (retriever.py lines 236-253). -/
structure SearchResult where
  id : String
  text : String
  metadata : PyVal
  score : Rat
  rank : Nat
  deriving DecidableEq

/-- `zip` of the four ranked lists with rank numbering and
`score = 1 - distance`. -/
def formatResults (qr : QueryRes) : List SearchResult :=
  ((qr.ids.zip qr.docs).zip (qr.metas.zip qr.dists)).enum.map fun ir =>
    { id := ir.2.1.1, text := ir.2.1.2, metadata := ir.2.2.1,
      score := 1 - ir.2.2.2, rank := ir.1 + 1 }

/-- `semantic_search` after the (external) index query `qr`
(retriever.py lines 178-256). -/
def semanticSearch (qr : QueryRes) (candidateIds : Option (List String))
    (topK : Nat) : List SearchResult :=
  let qr' :=
    match candidateIds with
    | some cands => if ¬cands.isEmpty then applyCandidateFilter qr cands topK
        else qr
    | none => qr
  formatResults qr'

/-- `retrieve` (retriever.py lines 262-299): prefilter (an empty candidate
list falls back to `None`, i.e. pure semantic search), semantic search, then
a stable sort by descending score.  `prefilter_keywords` is non-empty in
every configuration the source constructs (the constructor substitutes a
default list). -/
def retrieveRun (stored : List (String × String)) (keywords : List String)
    (query : String) (qr : QueryRes) (topK : Nat) : List SearchResult :=
  let cands := keywordPrefilter stored keywords query
  let candidateIds : Option (List String) :=
    if keywords ≠ [] then (if cands.isEmpty then none else some cands)
    else none
  let results := semanticSearch qr candidateIds topK
  stableSortBy (fun a b => decide (b.score ≤ a.score)) results

/-- The largest single-sentence token estimate of a sentence list (the
"one sentence unit's worth" yardstick of the chunk-budget property). -/
def maxTokenEst (xs : List String) : Nat :=
  (xs.map estimateTokens).foldr max 0

/-! ## Theorems -/

/-- C1 (counterexample): the evidence gate does not exist in the code.  One
concrete LLM response whose `verified` list holds a single item with an empty
evidence list: the verifier extraction forwards it unchanged, and the
composer consumes it and renders its table row (evidence cell `n/a`) — an
item with zero evidence citations does reach `composer_agent`. -/
theorem c1_counterexample :
    extractVerified (PyVal.pdict [("verified", PyVal.plist
      [PyVal.pdict [("label", PyVal.pstr "erb"),
                    ("title", PyVal.pstr "Stalled API specs"),
                    ("evidence", PyVal.plist [])]])]) =
      PyVal.plist [PyVal.pdict [("label", PyVal.pstr "erb"),
                    ("title", PyVal.pstr "Stalled API specs"),
                    ("evidence", PyVal.plist [])]] ∧
    (PyVal.pdict [("label", PyVal.pstr "erb"),
                  ("title", PyVal.pstr "Stalled API specs"),
                  ("evidence", PyVal.plist [])]).pyGet "evidence" =
      some (PyVal.plist []) ∧
    composerComputedRows [PyVal.pdict [("label", PyVal.pstr "erb"),
                    ("title", PyVal.pstr "Stalled API specs"),
                    ("evidence", PyVal.plist [])]] =
      ["| ERB | Stalled API specs |  |  |  | n/a |  |"] := by
  exact ⟨by decide, by decide, by decide⟩

/-- C1 (amended): no evidence-count gate sits between the verifier and the
composer.  The verifier returns exactly the `verified` value parsed from the
LLM response, and the composer renders one table row for every item of the
verified collection, regardless of its evidence list; the only evidence
requirements live in the LLM prompts. -/
theorem c1_amended :
    (∀ kvs v, lookup "verified" kvs = some v →
      extractVerified (PyVal.pdict kvs) = v) ∧
    ∀ verified : List PyVal,
      (composerComputedRows verified).length = verified.length := by
  constructor
  · intro kvs v h
    simp [extractVerified, h]
  · intro verified
    simp [composerComputedRows]

/-- C1 witness: the amended theorem applied at a concrete parsed response
and a concrete one-item verified collection. -/
theorem c1_witness :
    extractVerified (PyVal.pdict [("verified", PyVal.plist [])]) =
      PyVal.plist [] ∧
    (composerComputedRows [PyVal.pnone]).length = 1 :=
  ⟨c1_amended.1 _ _ (by decide), (c1_amended.2 [PyVal.pnone]).trans rfl⟩

/-- C2 (counterexample): with an LLM whose response contains an e-mail
address, the composer's emitted report is that raw response, which differs
from its redaction — the report does not equal the redaction of the composed
text, so no final-boundary redaction is applied. -/
theorem c2_counterexample :
    composerReport (fun _ => "Contact jane@co.com") "" "" [] [] [] =
      "Contact jane@co.com" ∧
    redactText [] "Contact jane@co.com" = "Contact [EMAIL]" ∧
    composerReport (fun _ => "Contact jane@co.com") "" "" [] [] [] ≠
      redactText []
        (composerReport (fun _ => "Contact jane@co.com") "" "" [] [] []) := by
  exact ⟨rfl, by decide, by decide⟩

/-- C2 (amended): the composer emits the LLM response verbatim — the report
equals the raw composed text for every LLM, prompt material and verified
collection, not its redaction; in particular there are runs whose report
differs from its own redaction. -/
theorem c2_amended :
    (∀ (llm : String → String) sysP prompt templates rules verified,
      composerReport llm sysP prompt templates rules verified =
        llm (composerInput sysP prompt templates rules verified)) ∧
    ∃ llm : String → String,
      composerReport llm "" "" [] [] [] ≠
        redactText [] (composerReport llm "" "" [] [] []) := by
  refine ⟨fun _ _ _ _ _ _ => rfl, ⟨fun _ => "Contact jane@co.com", by decide⟩⟩

/-- C10 (counterexample): with configured `top_k = 0` (an int the config
loader accepts), the falsy `or 6` fallback makes the analyzer consider up to
6 chunks, not `min(6, top_k) = 0`: a one-chunk state is passed through
whole, violating the claimed `min(6, top_k)` bound. -/
theorem c10_counterexample :
    analyzerBaseChunks [PyVal.pnone] 0 = [PyVal.pnone] ∧
    ¬((analyzerBaseChunks [PyVal.pnone] 0).length ≤ (min 6 (0 : Int)).toNat)
    := by
  exact ⟨by decide, by decide⟩

/-- C10 (amended): for every nonnegative configured `top_k`, the analyzer
considers exactly the first `min(6, top_k)` chunks when `top_k ≥ 1`, and the
first `min(6, 6) = 6` chunks when `top_k = 0` (the `or 6` fallback); chunks
beyond that bound are silently dropped. -/
theorem c10_amended (chunks : List PyVal) (topK : Int) (h : 0 ≤ topK) :
    analyzerBaseChunks chunks topK =
      chunks.take (min 6 (if topK = 0 then 6 else topK)).toNat ∧
    (0 < topK →
      (analyzerBaseChunks chunks topK).length ≤ min 6 topK.toNat) := by
  have hmax : analyzerMaxEvidence topK =
      min 6 (if topK = 0 then 6 else topK) := rfl
  have hnn : 0 ≤ min 6 (if topK = 0 then 6 else topK) := by
    rcases eq_or_ne topK 0 with h0 | h0 <;> simp [h0] <;> omega
  constructor
  · by_cases hl : (chunks.length : Int) > analyzerMaxEvidence topK
    · simp only [analyzerBaseChunks, hmax] at hl ⊢
      rw [if_pos hl]
      simp [pySliceTo, hnn]
    · simp only [analyzerBaseChunks, hmax] at hl ⊢
      rw [if_neg hl]
      rw [List.take_of_length_le]
      omega
  · intro hpos
    have h0 : (if topK = 0 then (6 : Int) else topK) = topK := by
      rw [if_neg (by omega)]
    by_cases hl : (chunks.length : Int) > analyzerMaxEvidence topK
    · simp only [analyzerBaseChunks, hmax, h0] at hl ⊢
      rw [if_pos hl]
      simp only [pySliceTo, hnn, h0, if_pos (by omega : (0:Int) ≤ min 6 topK)]
      have : (min (6 : Int) topK).toNat = min 6 topK.toNat := by omega
      rw [this]
      exact le_trans (List.length_take_le _ _) (le_refl _)
    · simp only [analyzerBaseChunks, hmax, h0] at hl ⊢
      rw [if_neg hl]
      omega

/-- C10 witness: the amended theorem at `top_k = 3` and a one-chunk state. -/
theorem c10_witness :
    analyzerBaseChunks [PyVal.pnone] 3 =
      [PyVal.pnone].take (min (6 : Int) (if (3 : Int) = 0 then 6 else 3)).toNat ∧
    (0 < (3 : Int) →
      (analyzerBaseChunks [PyVal.pnone] 3).length ≤ min 6 (3 : Int).toNat) :=
  c10_amended [PyVal.pnone] 3 (by decide)

/-- `semantic_search` restriction with a candidate set disjoint from the
ranked ids empties all four result lists. -/
theorem applyCandidateFilter_disjoint (qr : QueryRes) (cands : List String)
    (topK : Nat) (h : ∀ i ∈ qr.ids, i ∉ cands) :
    applyCandidateFilter qr cands topK = ⟨[], [], [], []⟩ := by
  have hkeep : (List.range qr.ids.length).filter
      (fun i => cands.contains (qr.ids.getD i "")) = [] := by
    rw [List.filter_eq_nil_iff]
    intro i hi
    rw [List.mem_range] at hi
    rw [List.getD_eq_getElem qr.ids "" hi]
    simpa using h _ (List.getElem_mem hi)
  unfold applyCandidateFilter
  rw [hkeep]
  simp

/-- A concrete ranked index answer used by the C4 theorems. -/
def c4Qr : QueryRes :=
  { ids := ["a"], docs := ["doc a"], metas := [PyVal.pdict []], dists := [0] }

/-- C4 (counterexample): with a stored collection whose keyword prefilter
yields the non-empty candidate set `["b"]` and a ranked answer whose only id
is `"a"` (empty intersection), `retrieve` returns the empty list — not the
full unrestricted ranked result, which is non-empty. -/
theorem c4_counterexample :
    keywordPrefilter [("b", "urgent blocker")] ["urgent"] "q" = ["b"] ∧
    retrieveRun [("b", "urgent blocker")] ["urgent"] "q" c4Qr 10 = [] ∧
    stableSortBy (fun a b => decide (b.score ≤ a.score))
      (formatResults c4Qr) ≠ [] := by
  exact ⟨by decide, by decide, by decide⟩

/-- C4 (amended): when the keyword prefilter yields a non-empty candidate
set with empty intersection with the ranked ids, `retrieve` returns the
empty list (the code comment says "fall back to empty filtered result
lists"); the full unrestricted ranked result is returned only when the
prefilter yields no candidates at all. -/
theorem c4_amended :
    (∀ stored keywords query qr topK,
      keywords ≠ [] →
      keywordPrefilter stored keywords query ≠ [] →
      (∀ i ∈ qr.ids, i ∉ keywordPrefilter stored keywords query) →
      retrieveRun stored keywords query qr topK = []) ∧
    (∀ stored keywords query qr topK,
      keywordPrefilter stored keywords query = [] →
      retrieveRun stored keywords query qr topK =
        stableSortBy (fun a b => decide (b.score ≤ a.score))
          (formatResults qr)) := by
  constructor
  · intro stored keywords query qr topK hkw hne hdisj
    have hcne : (keywordPrefilter stored keywords query).isEmpty = false := by
      cases hi : (keywordPrefilter stored keywords query).isEmpty
      · rfl
      · exact absurd (List.isEmpty_iff.mp hi) hne
    simp only [retrieveRun, semanticSearch]
    rw [if_pos hkw, if_neg (by simp [hcne])]
    simp only []
    rw [if_pos (by simp [hcne]), applyCandidateFilter_disjoint _ _ _ hdisj]
    rfl
  · intro stored keywords query qr topK hempty
    simp only [retrieveRun, semanticSearch]
    by_cases hkw : keywords ≠ []
    · rw [if_pos hkw, if_pos (by simp [hempty])]
    · rw [if_neg hkw]

/-- C4 witness: the amended theorem applied at the concrete prefilter
candidate set `["b"]` and ranked ids `["a"]`. -/
theorem c4_witness :
    retrieveRun [("b", "urgent blocker")] ["urgent"] "q" c4Qr 10 = [] :=
  c4_amended.1 [("b", "urgent blocker")] ["urgent"] "q" c4Qr 10
    (by decide) (by decide) (by decide)

theorem lookup_setKey_self (kvs : List (String × PyVal)) (k : String)
    (v : PyVal) : lookup k (setKey kvs k v) = some v := by
  induction kvs with
  | nil => simp [setKey, lookup]
  | cons kv rest ih =>
      by_cases h : kv.1 = k
      · simp [setKey, h, lookup]
      · simp [setKey, h, lookup, ih]

theorem lookup_setKey_ne (kvs : List (String × PyVal)) (k k' : String)
    (v : PyVal) (h : k' ≠ k) :
    lookup k' (setKey kvs k v) = lookup k' kvs := by
  induction kvs with
  | nil => simp [setKey, lookup, Ne.symm h]
  | cons kv rest ih =>
      by_cases hk : kv.1 = k
      · have hne : kv.1 ≠ k' := by rw [hk]; exact Ne.symm h
        simp [setKey, hk, lookup, hne, Ne.symm h]
      · by_cases hk' : kv.1 = k'
        · simp [setKey, hk, lookup, hk', h]
        · simp [setKey, hk, lookup, hk', ih]

theorem recipientsMutated_frame (kp : KnownPeople)
    (kvs a : List (String × PyVal)) (h : recipientsMutated kp kvs = some a)
    (k : String) (h1 : k ≠ "to_recipients") (h2 : k ≠ "cc_recipients") :
    lookup k a = lookup k kvs := by
  simp only [recipientsMutated] at h
  rcases hto : lookup "to_recipients" kvs with _ | tv <;>
    simp only [hto] at h
  · rcases hcc : lookup "cc_recipients" kvs with _ | cv <;>
      simp only [hcc, Option.some.injEq] at h
    · rw [h]
    · rcases hm : mutateRecipList kp cv with _ | cv' <;>
        simp only [hm, Option.map_some', Option.map_none',
          Option.some.injEq] at h
      · exact Option.noConfusion h
      · subst h; exact lookup_setKey_ne _ _ _ _ h2
  · rcases hm : mutateRecipList kp tv with _ | tv' <;>
      simp only [hm, Option.map_some', Option.map_none] at h
    · exact Option.noConfusion h
    · rcases hcc : lookup "cc_recipients" kvs with _ | cv <;>
        simp only [hcc, Option.some.injEq] at h
      · subst h; exact lookup_setKey_ne _ _ _ _ h1
      · rcases hm2 : mutateRecipList kp cv with _ | cv' <;>
          simp only [hm2, Option.map_some', Option.map_none',
            Option.some.injEq] at h
        · exact Option.noConfusion h
        · subst h
          rw [lookup_setKey_ne _ _ _ _ h2, lookup_setKey_ne _ _ _ _ h1]

theorem recipientsMutated_to (kp : KnownPeople)
    (kvs a : List (String × PyVal)) (h : recipientsMutated kp kvs = some a)
    (v : PyVal) (hv : lookup "to_recipients" kvs = some v) :
    lookup "to_recipients" a = mutateRecipList kp v := by
  simp only [recipientsMutated, hv] at h
  rcases hm : mutateRecipList kp v with _ | tv' <;>
    simp only [hm, Option.map_some', Option.map_none] at h
  · exact Option.noConfusion h
  · rcases hcc : lookup "cc_recipients" kvs with _ | cv <;>
      simp only [hcc, Option.some.injEq] at h
    · subst h; rw [lookup_setKey_self]
    · rcases hm2 : mutateRecipList kp cv with _ | cv' <;>
        simp only [hm2, Option.map_some', Option.map_none',
          Option.some.injEq] at h
      · exact Option.noConfusion h
      · subst h
        rw [lookup_setKey_ne _ _ _ _ (by decide), lookup_setKey_self]

theorem recipientsMutated_cc (kp : KnownPeople)
    (kvs a : List (String × PyVal)) (h : recipientsMutated kp kvs = some a)
    (v : PyVal) (hv : lookup "cc_recipients" kvs = some v) :
    lookup "cc_recipients" a = mutateRecipList kp v := by
  simp only [recipientsMutated, hv] at h
  rcases hto : lookup "to_recipients" kvs with _ | tv <;>
    simp only [hto] at h
  · rcases hm2 : mutateRecipList kp v with _ | cv' <;>
      simp only [hm2, Option.map_some', Option.map_none',
        Option.some.injEq] at h
    · exact Option.noConfusion h
    · subst h; rw [lookup_setKey_self]
  · rcases hm : mutateRecipList kp tv with _ | tv' <;>
      simp only [hm, Option.map_some', Option.map_none] at h
    · exact Option.noConfusion h
    · rcases hm2 : mutateRecipList kp v with _ | cv' <;>
        simp only [hm2, Option.map_some', Option.map_none',
          Option.some.injEq] at h
      · exact Option.noConfusion h
      · subst h; rw [lookup_setKey_self]

/-- A concrete email record with one recipient, used by the C5 theorems. -/
def c5Rec : PyVal := PyVal.pdict
  [("sender_email", PyVal.pstr "j@co.com"),
   ("to_recipients", PyVal.plist
     [PyVal.pdict [("name", PyVal.pstr "Jane"),
                   ("email", PyVal.pstr "jane@x.com")]])]

/-- C5 (counterexample): `redact_email_data` mutates its argument.  On a
record with one recipient, the argument after the call carries the redacted
recipient dict (`name = "[NAME]"`, `email = "[EMAIL]"`): the nested dicts
are shared with the shallow copy and written in place, so the input is not
left unchanged. -/
theorem c5_counterexample :
    redactEmailData [] c5Rec = some
      (PyVal.pdict
        [("sender_email", PyVal.pstr "[EMAIL]"),
         ("to_recipients", PyVal.plist
           [PyVal.pdict [("name", PyVal.pstr "[NAME]"),
                         ("email", PyVal.pstr "[EMAIL]")]]),
         ("sender_name", PyVal.pstr "[NAME]"),
         ("sender_person_id", PyVal.pstr "[PERSON]")],
       PyVal.pdict
        [("sender_email", PyVal.pstr "j@co.com"),
         ("to_recipients", PyVal.plist
           [PyVal.pdict [("name", PyVal.pstr "[NAME]"),
                         ("email", PyVal.pstr "[EMAIL]")]])]) ∧
    (redactEmailData [] c5Rec).map Prod.snd ≠ some c5Rec := by
  exact ⟨by decide, by decide⟩

/-- C5 (amended): all redaction of sender, subject and body is visible only
in the returned copy — after the call every top-level field of the argument
other than `to_recipients` / `cc_recipients` is unchanged — but the nested
recipient dictionaries are mutated in place: the argument's recipient lists
hold the redacted recipients. -/
theorem c5_amended (kp : KnownPeople) (kvs : List (String × PyVal))
    (res after : PyVal)
    (h : redactEmailData kp (PyVal.pdict kvs) = some (res, after)) :
    ∃ akvs, after = PyVal.pdict akvs ∧
      (∀ k, k ≠ "to_recipients" → k ≠ "cc_recipients" →
        lookup k akvs = lookup k kvs) ∧
      (∀ v, lookup "to_recipients" kvs = some v →
        lookup "to_recipients" akvs = mutateRecipList kp v) ∧
      (∀ v, lookup "cc_recipients" kvs = some v →
        lookup "cc_recipients" akvs = mutateRecipList kp v) := by
  simp only [redactEmailData] at h
  rcases hc : copyResult kp kvs with _ | r <;> rw [hc] at h
  · exact absurd h (by simp)
  rcases ha : recipientsMutated kp kvs with _ | a <;> rw [ha] at h
  · exact absurd h (by simp)
  simp only [Option.some.injEq, Prod.mk.injEq] at h
  exact ⟨a, h.2.symm,
    fun k h1 h2 => recipientsMutated_frame kp kvs a ha k h1 h2,
    fun v hv => recipientsMutated_to kp kvs a ha v hv,
    fun v hv => recipientsMutated_cc kp kvs a ha v hv⟩

/-- C5 witness: the amended theorem at the concrete record. -/
theorem c5_witness :
    ∃ akvs,
      (PyVal.pdict
        [("sender_email", PyVal.pstr "j@co.com"),
         ("to_recipients", PyVal.plist
           [PyVal.pdict [("name", PyVal.pstr "[NAME]"),
                         ("email", PyVal.pstr "[EMAIL]")]])] : PyVal) =
        PyVal.pdict akvs ∧
      (∀ k, k ≠ "to_recipients" → k ≠ "cc_recipients" →
        lookup k akvs = lookup k
          [("sender_email", PyVal.pstr "j@co.com"),
           ("to_recipients", PyVal.plist
             [PyVal.pdict [("name", PyVal.pstr "Jane"),
                           ("email", PyVal.pstr "jane@x.com")]])]) ∧
      (∀ v, lookup "to_recipients"
          [("sender_email", PyVal.pstr "j@co.com"),
           ("to_recipients", PyVal.plist
             [PyVal.pdict [("name", PyVal.pstr "Jane"),
                           ("email", PyVal.pstr "jane@x.com")]])] = some v →
        lookup "to_recipients" akvs = mutateRecipList [] v) ∧
      (∀ v, lookup "cc_recipients"
          [("sender_email", PyVal.pstr "j@co.com"),
           ("to_recipients", PyVal.plist
             [PyVal.pdict [("name", PyVal.pstr "Jane"),
                           ("email", PyVal.pstr "jane@x.com")]])] = some v →
        lookup "cc_recipients" akvs = mutateRecipList [] v) :=
  c5_amended []
    [("sender_email", PyVal.pstr "j@co.com"),
     ("to_recipients", PyVal.plist
       [PyVal.pdict [("name", PyVal.pstr "Jane"),
                     ("email", PyVal.pstr "jane@x.com")]])]
    (PyVal.pdict
      [("sender_email", PyVal.pstr "[EMAIL]"),
       ("to_recipients", PyVal.plist
         [PyVal.pdict [("name", PyVal.pstr "[NAME]"),
                       ("email", PyVal.pstr "[EMAIL]")]]),
       ("sender_name", PyVal.pstr "[NAME]"),
       ("sender_person_id", PyVal.pstr "[PERSON]")])
    (PyVal.pdict
      [("sender_email", PyVal.pstr "j@co.com"),
       ("to_recipients", PyVal.plist
         [PyVal.pdict [("name", PyVal.pstr "[NAME]"),
                       ("email", PyVal.pstr "[EMAIL]")]])])
    (by decide)

theorem findSome_exists {α β : Type} {f : α → Option β} {l : List α} {b : β}
    (h : l.findSome? f = some b) : ∃ a ∈ l, f a = some b := by
  induction l with
  | nil => cases h
  | cons x xs ih =>
      rw [List.findSome?_cons] at h
      cases hf : f x with
      | some v =>
          simp only [hf] at h
          exact ⟨x, List.mem_cons_self x xs, hf.trans h⟩
      | none =>
          simp only [hf] at h
          obtain ⟨a, ha, hfa⟩ := ih h
          exact ⟨a, List.mem_cons_of_mem x ha, hfa⟩

/-- Every residue produced by `charRun` is a suffix of the input. -/
theorem charRun_suffix (p : Char → Bool) :
    ∀ (lo : Nat) (hi : Option Nat) (s : List Char) (nr : Nat × List Char),
    nr ∈ charRun p lo hi s → nr.2 <:+ s := by
  intro lo hi s
  induction s generalizing lo hi with
  | nil =>
      intro nr h
      simp only [charRun] at h
      by_cases h0 : lo = 0
      · rw [if_pos h0, List.mem_singleton] at h
        subst h
        exact List.suffix_refl _
      · rw [if_neg h0] at h; cases h
  | cons c rest ih =>
      intro nr h
      simp only [charRun, List.mem_append] at h
      rcases h with h | h
      · by_cases hc : p c ∧ hi ≠ some 0
        · rw [if_pos hc, List.mem_map] at h
          obtain ⟨mr, hmr, hme⟩ := h
          have := ih (lo - 1) (hi.map (· - 1)) mr hmr
          rw [← hme]
          exact this.trans (List.suffix_cons c rest)
        · rw [if_neg hc] at h; cases h
      · by_cases h0 : lo = 0
        · rw [if_pos h0, List.mem_singleton] at h
          subst h
          exact List.suffix_refl _
        · rw [if_neg h0] at h; cases h

/-- A `charRun` with a positive lower bound consumes at least one class
character of the input. -/
theorem charRun_one (p : Char → Bool) :
    ∀ (lo : Nat) (hi : Option Nat) (s : List Char) (nr : Nat × List Char),
    1 ≤ lo → nr ∈ charRun p lo hi s → ∃ c ∈ s, p c = true := by
  intro lo hi s
  induction s generalizing lo hi with
  | nil =>
      intro nr hlo h
      simp only [charRun] at h
      rw [if_neg (by omega)] at h
      cases h
  | cons c rest _ =>
      intro nr hlo h
      simp only [charRun, List.mem_append] at h
      rcases h with h | h
      · by_cases hc : p c ∧ hi ≠ some 0
        · exact ⟨c, List.mem_cons_self c rest, hc.1⟩
        · rw [if_neg hc] at h; cases h
      · rw [if_neg (by omega)] at h; cases h

/-- Every residue produced by `optLits` is a suffix of the input. -/
theorem optLits_suffix (lits : List (List Char)) (s : List Char)
    (nr : Nat × List Char) (h : nr ∈ optLits lits s) : nr.2 <:+ s := by
  simp only [optLits, List.mem_append] at h
  rcases h with h | h
  · rw [List.mem_filterMap] at h
    obtain ⟨l, _, hl⟩ := h
    by_cases hp : l.isPrefixOf s
    · rw [if_pos hp] at hl
      cases hl
      exact List.drop_suffix _ _
    · rw [if_neg hp] at hl; cases hl
  · rw [List.mem_singleton] at h
    cases h
    exact List.suffix_refl _

/-- An e-mail match requires a literal `@` in the input. -/
theorem emailMatchAt_needs (prev : Option Char) (s : List Char) (n : Nat)
    (h : emailMatchAt prev s = some n) : '@' ∈ s := by
  obtain ⟨nr, hmem, hf⟩ := findSome_exists h
  have hsuf := charRun_suffix localC 1 none s nr hmem
  split at hf
  next r2 heq =>
      exact hsuf.subset (heq ▸ List.mem_cons_self '@' r2)
  next => cases hf

/-- A phone match requires a `\d` digit in the input (the mandatory
`\d{1,2}` group). -/
theorem phoneMatchAt_needs (prev : Option Char) (s : List Char) (n : Nat)
    (h : phoneMatchAt prev s = some n) : ∃ c ∈ s, isDigitC c = true := by
  obtain ⟨ar, har, hf⟩ := findSome_exists h
  obtain ⟨br, hbr, hg⟩ := findSome_exists hf
  obtain ⟨cr, hcr, _⟩ := findSome_exists hg
  obtain ⟨c, hc, hcd⟩ := charRun_one isDigitC 1 (some 2) br.2 cr
    (by omega) hcr
  have h1 := optLits_suffix _ s ar har
  have h2 := (charRun_suffix sepC 0 (some 1) ar.2 br hbr).trans h1
  exact ⟨c, h2.subset hc, hcd⟩

/-- An id-pattern match requires a `\d` digit in the input. -/
theorem idMatchAt_needs (prev : Option Char) (s : List Char) (n : Nat)
    (h : idMatchAt prev s = some n) : ∃ c ∈ s, isDigitC c = true := by
  simp only [idMatchAt] at h
  by_cases hb : !wordBoundary prev s.head?
  · rw [if_pos hb] at h; cases h
  · rw [if_neg hb] at h
    obtain ⟨ar, har, _⟩ := findSome_exists h
    obtain ⟨c, hc, hcd⟩ := charRun_one isDigitC 6 (some 6) s ar
      (by omega) har
    exact ⟨c, hc, hcd⟩

/-- A card-pattern match requires a `\d` digit in the input. -/
theorem cardMatchAt_needs (prev : Option Char) (s : List Char) (n : Nat)
    (h : cardMatchAt prev s = some n) : ∃ c ∈ s, isDigitC c = true := by
  simp only [cardMatchAt] at h
  by_cases hb : !wordBoundary prev s.head?
  · rw [if_pos hb] at h; cases h
  · rw [if_neg hb] at h
    obtain ⟨ar, har, _⟩ := findSome_exists h
    obtain ⟨c, hc, hcd⟩ := charRun_one isDigitC 4 (some 4) s ar
      (by omega) har
    exact ⟨c, hc, hcd⟩

/-- An ip-pattern match requires a `\d` digit in the input. -/
theorem ipMatchAt_needs (prev : Option Char) (s : List Char) (n : Nat)
    (h : ipMatchAt prev s = some n) : ∃ c ∈ s, isDigitC c = true := by
  simp only [ipMatchAt] at h
  by_cases hb : !wordBoundary prev s.head?
  · rw [if_pos hb] at h; cases h
  · rw [if_neg hb] at h
    obtain ⟨ar, har, _⟩ := findSome_exists h
    obtain ⟨c, hc, hcd⟩ := charRun_one isDigitC 1 (some 3) s ar
      (by omega) har
    exact ⟨c, hc, hcd⟩

/-- A URL match requires a literal `:` in the input. -/
theorem urlMatchAt_needs (prev : Option Char) (s : List Char) (n : Nat)
    (h : urlMatchAt prev s = some n) : ':' ∈ s := by
  simp only [urlMatchAt] at h
  by_cases hp : ['h', 't', 't', 'p'].isPrefixOf s
  · rw [if_pos hp] at h
    obtain ⟨ar, har, hf⟩ := findSome_exists h
    by_cases hq : [':', '/', '/'].isPrefixOf ar.2
    · have hsub : ':' ∈ ar.2 :=
        (List.isPrefixOf_iff_prefix.mp hq).subset
          (List.mem_cons_self _ _)
      have h1 := charRun_suffix (· = 's') 0 (some 1) (s.drop 4) ar har
      exact (h1.trans (List.drop_suffix 4 s)).subset hsub
    · rw [if_neg hq] at hf; cases hf
  · rw [if_neg hp] at h; cases h

/-- `re.sub` leaves a string unchanged when the matcher fails at every
suffix. -/
theorem subRunAux_id (matchAt : Option Char → List Char → Option Nat)
    (repl : List Char) :
    ∀ (s : List Char) (fuel : Nat) (prev : Option Char),
    (∀ prev' s', s' <:+ s → matchAt prev' s' = none) →
    subRunAux matchAt repl fuel prev s = s := by
  intro s
  induction s with
  | nil => intro fuel prev _; cases fuel <;> rfl
  | cons c rest ih =>
      intro fuel prev hnone
      cases fuel with
      | zero => rfl
      | succ fuel =>
          simp only [subRunAux, hnone prev (c :: rest) (List.suffix_refl _)]
          rw [ih fuel (some c)
            (fun prev' s' hs => hnone prev' s' (hs.trans (List.suffix_cons c rest)))]

/-- `subRun` likewise. -/
theorem subRun_id (matchAt : Option Char → List Char → Option Nat)
    (repl : List Char) (prev : Option Char) (s : List Char)
    (h : ∀ prev' s', s' <:+ s → matchAt prev' s' = none) :
    subRun matchAt repl prev s = s :=
  subRunAux_id matchAt repl s s.length prev h

/-- The redactor's `\d` is Unicode-aware: a phone number written entirely in
Arabic-Indic digits (which contains no ASCII digit, no `@` and no `:`) is
redacted to the phone sentinel. -/
theorem redactText_unicodeDigits :
    redactText [] "٦٦٦٦٦٦٦٦" = "[PHONE]" := by decide

/-- Texts without Unicode decimal digits (Python `\d`), `@` and `:` are
fixed points of the six built-in redaction patterns with an empty
registry. -/
theorem redactTextEmptyFixed (t : String)
    (h : ∀ c ∈ t.data, ¬(isDigitC c = true ∨ c = '@' ∨ c = ':')) :
    redactText [] t = t := by
  have hclean : ∀ (s' : List Char), s' <:+ t.data →
      ∀ c ∈ s', ¬(isDigitC c = true ∨ c = '@' ∨ c = ':') :=
    fun s' hs c hc => h c (hs.subset hc)
  have he : subRun emailMatchAt "[EMAIL]".data none t.data = t.data := by
    refine subRun_id _ _ _ _ (fun prev' s' hs => ?_)
    cases hm : emailMatchAt prev' s' with
    | none => rfl
    | some n =>
        exact absurd (Or.inr (Or.inl rfl))
          (hclean s' hs '@' (emailMatchAt_needs prev' s' n hm))
  rw [redactText, he]
  have hp : subRun phoneMatchAt "[PHONE]".data none t.data = t.data := by
    refine subRun_id _ _ _ _ (fun prev' s' hs => ?_)
    cases hm : phoneMatchAt prev' s' with
    | none => rfl
    | some n =>
        obtain ⟨c, hc, hcd⟩ := phoneMatchAt_needs prev' s' n hm
        exact absurd (Or.inl hcd) (hclean s' hs c hc)
  rw [hp]
  have hi : subRun idMatchAt "[ID]".data none t.data = t.data := by
    refine subRun_id _ _ _ _ (fun prev' s' hs => ?_)
    cases hm : idMatchAt prev' s' with
    | none => rfl
    | some n =>
        obtain ⟨c, hc, hcd⟩ := idMatchAt_needs prev' s' n hm
        exact absurd (Or.inl hcd) (hclean s' hs c hc)
  rw [hi]
  have hcard : subRun cardMatchAt "[CARD]".data none t.data = t.data := by
    refine subRun_id _ _ _ _ (fun prev' s' hs => ?_)
    cases hm : cardMatchAt prev' s' with
    | none => rfl
    | some n =>
        obtain ⟨c, hc, hcd⟩ := cardMatchAt_needs prev' s' n hm
        exact absurd (Or.inl hcd) (hclean s' hs c hc)
  rw [hcard]
  have hip : subRun ipMatchAt "[IP]".data none t.data = t.data := by
    refine subRun_id _ _ _ _ (fun prev' s' hs => ?_)
    cases hm : ipMatchAt prev' s' with
    | none => rfl
    | some n =>
        obtain ⟨c, hc, hcd⟩ := ipMatchAt_needs prev' s' n hm
        exact absurd (Or.inl hcd) (hclean s' hs c hc)
  rw [hip]
  have hu : subRun urlMatchAt "[URL]".data none t.data = t.data := by
    refine subRun_id _ _ _ _ (fun prev' s' hs => ?_)
    cases hm : urlMatchAt prev' s' with
    | none => rfl
    | some n =>
        exact absurd (Or.inr (Or.inr rfl))
          (hclean s' hs ':' (urlMatchAt_needs prev' s' n hm))
  rw [hu]
  have hlits : (knownNameLits []).isEmpty = true := by decide
  rw [if_pos hlits]

/-- C7 (counterexample): `redact_text` is not idempotent for every registry.
With a known person literally named "NAME", the first pass turns the text
"NAME" into the sentinel `[NAME]`, and a second pass matches the name inside
the sentinel again, producing `[[NAME]]`. -/
theorem c7_counterexample :
    redactText [("a@b.com", [("name", "NAME")])] "NAME" = "[NAME]" ∧
    redactText [("a@b.com", [("name", "NAME")])]
        (redactText [("a@b.com", [("name", "NAME")])] "NAME") = "[[NAME]]" ∧
    ("[[NAME]]" : String) ≠ "[NAME]" := by
  have h1 : redactText [("a@b.com", [("name", "NAME")])] "NAME" = "[NAME]" :=
    by decide
  refine ⟨h1, ?_, by decide⟩
  rw [h1]
  decide

/-- C7 (amended): with the empty known-people registry, every text that
contains no Unicode decimal digit (no character matched by Python's
`\d`, in any script), no `@` and no `:` is a fixed point of
`redact_text`, so
`redact_text` is idempotent on all such texts — in particular on each of the
sentinel tokens `[EMAIL]`, `[PHONE]`, `[ID]`, `[CARD]`, `[IP]`, `[URL]`,
`[NAME]`, which no built-in pattern matches.  For registries whose names
overlap the sentinel text, idempotence fails (see the counterexample). -/
theorem c7_amended (t : String)
    (h : ∀ c ∈ t.data, ¬(isDigitC c = true ∨ c = '@' ∨ c = ':')) :
    (redactText [] t = t ∧
      redactText [] (redactText [] t) = redactText [] t) ∧
    ∀ s ∈ ["[EMAIL]", "[PHONE]", "[ID]", "[CARD]", "[IP]", "[URL]",
           "[NAME]"], redactText [] s = s := by
  have hfix := redactTextEmptyFixed t h
  exact ⟨⟨hfix, by rw [hfix, hfix]⟩, by decide⟩

/-- C7 witness: the amended theorem at the sentinel `[EMAIL]` itself. -/
theorem c7_witness :
    (redactText [] "[EMAIL]" = "[EMAIL]" ∧
      redactText [] (redactText [] "[EMAIL]") = redactText [] "[EMAIL]") ∧
    ∀ s ∈ ["[EMAIL]", "[PHONE]", "[ID]", "[CARD]", "[IP]", "[URL]",
           "[NAME]"], redactText [] s = s :=
  c7_amended "[EMAIL]" (by decide)

theorem sumEst_nil : sumEst [] = 0 := rfl

theorem sumEst_le (xs : List String) (M : Nat)
    (h : ∀ s ∈ xs, estimateTokens s ≤ M) : sumEst xs ≤ xs.length * M := by
  induction xs with
  | nil => simp [sumEst]
  | cons x rest ih =>
      have hx := h x (List.mem_cons_self x rest)
      have hr := ih (fun s hs => h s (List.mem_cons_of_mem x hs))
      simp only [sumEst, List.map_cons, List.sum_cons, List.length_cons]
      calc estimateTokens x + (rest.map estimateTokens).sum
          ≤ M + rest.length * M := Nat.add_le_add hx hr
        _ = (rest.length + 1) * M := by ring

theorem le_maxTokenEst (xs : List String) (s : String) (h : s ∈ xs) :
    estimateTokens s ≤ maxTokenEst xs := by
  induction xs with
  | nil => cases h
  | cons x rest ih =>
      rcases List.mem_cons.mp h with h | h
      · subst h
        exact le_max_left _ _
      · exact le_trans (ih h) (le_max_right _ _)

theorem takeLast_subset (n : Nat) (xs : List String) :
    ∀ s ∈ takeLast n xs, s ∈ xs :=
  fun s hs => (List.drop_subset _ xs) hs

theorem takeLast_length_le (xs : List String) : (takeLast 3 xs).length ≤ 3 := by
  simp only [takeLast, List.length_drop]
  omega

/-- Every chunk emitted by the accumulation loop is either already in the
accumulator or an application of `mkChunk`. -/
theorem chunkLoop_mem (td : ThreadData) (fp tid : String)
    (maps : List EMap) (sentences : List String) (cs : Nat) :
    ∀ (rest : List String) (chunks : List LChunk) (current : List String)
      (curTok : Nat) (c : LChunk),
    c ∈ chunkLoop td fp tid maps sentences cs rest chunks current curTok →
    c ∈ chunks ∨
      ∃ k cur tok sp, c = mkChunk td fp tid maps k cur tok sp := by
  intro rest
  induction rest with
  | nil =>
      intro chunks current curTok c hc
      simp only [chunkLoop] at hc
      by_cases hcur : current.isEmpty
      · rw [if_pos hcur] at hc
        exact Or.inl hc
      · rw [if_neg hcur, List.mem_append, List.mem_singleton] at hc
        rcases hc with hc | hc
        · exact Or.inl hc
        · exact Or.inr ⟨_, _, _, _, hc⟩
  | cons s rest ih =>
      intro chunks current curTok c hc
      simp only [chunkLoop] at hc
      by_cases hg : cs < curTok + estimateTokens s ∧ ¬current.isEmpty = true
      · rw [if_pos hg] at hc
        rcases ih _ _ _ c hc with h | h
        · rw [List.mem_append, List.mem_singleton] at h
          rcases h with h | h
          · exact Or.inl h
          · exact Or.inr ⟨_, _, _, _, h⟩
        · exact Or.inr h
      · rw [if_neg hg] at hc
        exact ih _ _ _ c hc

/-- The chunk ids of the loop output continue the `thread_id + "_chunk_" +
(index + 1)` numbering of the accumulator. -/
theorem chunkLoop_ids (td : ThreadData) (fp tid : String)
    (maps : List EMap) (sentences : List String) (cs : Nat) :
    ∀ (rest : List String) (chunks : List LChunk) (current : List String)
      (curTok : Nat),
    chunks.map (fun c => c.chunk_id) =
      (List.range chunks.length).map
        (fun i => tid ++ "_chunk_" ++ toString (i + 1)) →
    (chunkLoop td fp tid maps sentences cs rest chunks current curTok).map
        (fun c => c.chunk_id) =
      (List.range (chunkLoop td fp tid maps sentences cs rest chunks current
          curTok).length).map
        (fun i => tid ++ "_chunk_" ++ toString (i + 1)) := by
  have hext : ∀ (chunks : List LChunk) (cur : List String) (tok sp : Nat),
      chunks.map (fun c => c.chunk_id) =
        (List.range chunks.length).map
          (fun i => tid ++ "_chunk_" ++ toString (i + 1)) →
      (chunks ++ [mkChunk td fp tid maps chunks.length cur tok sp]).map
          (fun c => c.chunk_id) =
        (List.range (chunks ++ [mkChunk td fp tid maps chunks.length cur tok
            sp]).length).map
          (fun i => tid ++ "_chunk_" ++ toString (i + 1)) := by
    intro chunks cur tok sp h
    rw [List.map_append, h, List.length_append, List.length_singleton,
      List.range_succ, List.map_append]
    rfl
  intro rest
  induction rest with
  | nil =>
      intro chunks current curTok h
      simp only [chunkLoop]
      by_cases hcur : current.isEmpty
      · rw [if_pos hcur]; exact h
      · rw [if_neg hcur]
        exact hext chunks current curTok _ h
  | cons s rest ih =>
      intro chunks current curTok h
      simp only [chunkLoop]
      by_cases hg : cs < curTok + estimateTokens s ∧ ¬current.isEmpty = true
      · rw [if_pos hg]
        exact ih _ _ _ (hext chunks current curTok _ h)
      · rw [if_neg hg]
        exact ih _ _ _ h

/-- Token-estimate invariant of the accumulation loop: every emitted chunk's
recorded estimate is at most `max budget (4 * M)` where `M` bounds the
single-sentence estimates (the overlap seed has at most 3 sentences plus the
triggering sentence). -/
theorem chunkLoop_bound (td : ThreadData) (fp tid : String)
    (maps : List EMap) (sentences : List String) (cs M : Nat) :
    ∀ (rest : List String) (chunks : List LChunk) (current : List String)
      (curTok : Nat),
    (∀ s ∈ rest, estimateTokens s ≤ M) →
    (∀ s ∈ current, estimateTokens s ≤ M) →
    curTok = sumEst current →
    curTok ≤ max cs (4 * M) →
    (∀ c ∈ chunks, c.m_chunk_size ≤ max cs (4 * M)) →
    ∀ c ∈ chunkLoop td fp tid maps sentences cs rest chunks current curTok,
      c.m_chunk_size ≤ max cs (4 * M) := by
  intro rest
  induction rest with
  | nil =>
      intro chunks current curTok _ _ _ htok hchunks c hc
      simp only [chunkLoop] at hc
      by_cases hcur : current.isEmpty
      · rw [if_pos hcur] at hc
        exact hchunks c hc
      · rw [if_neg hcur, List.mem_append, List.mem_singleton] at hc
        rcases hc with hc | hc
        · exact hchunks c hc
        · subst hc
          exact htok
  | cons s rest ih =>
      intro chunks current curTok hrest hcur htokeq htok hchunks c hc
      have hs : estimateTokens s ≤ M := hrest s (List.mem_cons_self s rest)
      have hrest' : ∀ x ∈ rest, estimateTokens x ≤ M :=
        fun x hx => hrest x (List.mem_cons_of_mem s hx)
      simp only [chunkLoop] at hc
      by_cases hg : cs < curTok + estimateTokens s ∧ ¬current.isEmpty = true
      · rw [if_pos hg] at hc
        set overlap := if 3 ≤ current.length then takeLast 3 current
          else current with hov
        have hovsub : ∀ x ∈ overlap, x ∈ current := by
          intro x hx
          rw [hov] at hx
          by_cases h3 : 3 ≤ current.length
          · rw [if_pos h3] at hx
            exact takeLast_subset 3 current x hx
          · rw [if_neg h3] at hx
            exact hx
        have hovlen : overlap.length ≤ 3 := by
          rw [hov]
          by_cases h3 : 3 ≤ current.length
          · rw [if_pos h3]
            exact takeLast_length_le current
          · rw [if_neg h3]
            omega
        have hcur' : ∀ x ∈ overlap ++ [s], estimateTokens x ≤ M := by
          intro x hx
          rw [List.mem_append, List.mem_singleton] at hx
          rcases hx with hx | hx
          · exact hcur x (hovsub x hx)
          · subst hx
            exact hs
        have hbound : sumEst (overlap ++ [s]) ≤ max cs (4 * M) := by
          have h1 : sumEst (overlap ++ [s]) ≤ (overlap ++ [s]).length * M :=
            sumEst_le _ M hcur'
          have h2 : (overlap ++ [s]).length ≤ 4 := by
            rw [List.length_append, List.length_singleton]
            omega
          calc sumEst (overlap ++ [s]) ≤ (overlap ++ [s]).length * M := h1
            _ ≤ 4 * M := Nat.mul_le_mul_right M h2
            _ ≤ max cs (4 * M) := le_max_right _ _
        refine ih _ _ _ hrest' hcur' rfl hbound ?_ c hc
        intro c' hc'
        rw [List.mem_append, List.mem_singleton] at hc'
        rcases hc' with hc' | hc'
        · exact hchunks c' hc'
        · subst hc'
          exact htok
      · rw [if_neg hg] at hc
        have hcur' : ∀ x ∈ current ++ [s], estimateTokens x ≤ M := by
          intro x hx
          rw [List.mem_append, List.mem_singleton] at hx
          rcases hx with hx | hx
          · exact hcur x hx
          · subst hx
            exact hs
        have htokeq' : curTok + estimateTokens s = sumEst (current ++ [s]) := by
          rw [htokeq]
          simp [sumEst]
        have hbound : curTok + estimateTokens s ≤ max cs (4 * M) := by
          rcases Decidable.not_and_iff_or_not.mp hg with hg' | hg'
          · exact le_trans (le_of_not_gt hg') (le_max_left _ _)
          · have hce : current = [] := by
              rcases current with _ | _
              · rfl
              · simp at hg'
            have : curTok = 0 := by rw [htokeq, hce, sumEst_nil]
            rw [this, Nat.zero_add]
            calc estimateTokens s ≤ M := hs
              _ ≤ 4 * M := by omega
              _ ≤ max cs (4 * M) := le_max_right _ _
        exact ih _ _ _ hrest' hcur' htokeq' hbound hchunks c hc

/-- With the mappings the chunker builds (first mapping at content offset 0,
or none at all), the position-to-line mapper is monotone. -/
theorem mapContentPos_mono (maps : List EMap)
    (hm : maps = [] ∨ ∃ m rest, maps = m :: rest ∧ m.content_start = 0)
    (a b : Nat) (hab : a ≤ b) :
    mapContentPos maps a ≤ mapContentPos maps b := by
  rcases hm with hm | ⟨m, rest, hm, hm0⟩
  · subst hm
    simp [mapContentPos]
  · subst hm
    have hfa : (m :: rest).find? (fun m' => m'.content_start ≤ a) = some m :=
      List.find?_cons_of_pos _ (by simp [hm0])
    have hfb : (m :: rest).find? (fun m' => m'.content_start ≤ b) = some m :=
      List.find?_cons_of_pos _ (by simp [hm0])
    simp only [mapContentPos, hfa, hfb, hm0]
    omega

/-- The email-loop fold preserves "no mappings yet and offset 0, or the
first mapping starts at content offset 0". -/
theorem btmFold_head (bounds : List (Nat × Int)) (numLines : Nat) :
    ∀ (ems : List (Nat × EmailD)) (st : String × List EMap × Nat),
    (st.2.1 = [] ∧ st.2.2 = 0) ∨
      (∃ m rest, st.2.1 = m :: rest ∧ m.content_start = 0) →
    ((ems.foldl (btmStep bounds numLines) st).2.1 = [] ∧
        (ems.foldl (btmStep bounds numLines) st).2.2 = 0) ∨
      (∃ m rest, (ems.foldl (btmStep bounds numLines) st).2.1 = m :: rest ∧
        m.content_start = 0) := by
  intro ems
  induction ems with
  | nil => intro st h; exact h
  | cons e rest ih =>
      intro st h
      rw [List.foldl_cons]
      refine ih _ ?_
      obtain ⟨t, maps, off⟩ := st
      rcases h with ⟨h1, h2⟩ | ⟨m, tl, h1, h2⟩
      · simp only at h1 h2
        subst h1
        subst h2
        exact Or.inr ⟨_, _, rfl, rfl⟩
      · simp only at h1
        subst h1
        exact Or.inr ⟨m, _, rfl, h2⟩

/-- The mappings of a thread satisfy the `mapContentPos_mono` premise. -/
theorem threadMaps_head (readFile : String → Option (List String))
    (td : ThreadData) :
    (threadTextMaps readFile td).2 = [] ∨
      ∃ m rest, (threadTextMaps readFile td).2 = m :: rest ∧
        m.content_start = 0 := by
  have h := btmFold_head (emailBoundaries (threadLines readFile td))
    (threadLines readFile td).length td.emails.enum ("", [], 0)
    (Or.inl ⟨rfl, rfl⟩)
  rcases h with ⟨h1, _⟩ | h
  · exact Or.inl h1
  · exact Or.inr h

/-- A concrete thread used by the C3 counterexample (and witness inputs):
one email, short body. -/
def tdC3A : ThreadData :=
  { thread_id := some "tA", file_path := some "p.txt",
    emails := [{ sender_name := some "A", sender_role := some "B",
                 date := some "C", subject := some "D.",
                 to_recipients := [[("name", "R")]],
                 body := some "Hi there." }] }

/-- The same thread under a different thread id. -/
def tdC3B : ThreadData := { tdC3A with thread_id := some "tB" }

/-- C3 (counterexample): chunk ids are not a function of chunk text.  Two
threads with identical emails but different thread ids produce two chunks
with identical text and different ids (`tA_chunk_1` vs `tB_chunk_1`), so two
chunks with the same text do not receive the same id. -/
theorem c3_counterexample :
    (chunkThreads (fun _ => none) 1000 [tdC3A, tdC3B]).length = 2 ∧
    ((chunkThreads (fun _ => none) 1000 [tdC3A, tdC3B]).map
      (fun c => c.text)).getD 0 "0" =
      ((chunkThreads (fun _ => none) 1000 [tdC3A, tdC3B]).map
        (fun c => c.text)).getD 1 "1" ∧
    ((chunkThreads (fun _ => none) 1000 [tdC3A, tdC3B]).map
      (fun c => c.chunk_id)).getD 0 "0" ≠
      ((chunkThreads (fun _ => none) 1000 [tdC3A, tdC3B]).map
        (fun c => c.chunk_id)).getD 1 "0" := by
  refine ⟨by decide, by decide, by decide⟩

/-- C3 (amended): the id of the k-th chunk of a thread is
`thread_id + "_chunk_" + (k+1)` — a function of the thread id and the chunk's
ordinal position, not of the chunk's text.  It is deterministic (identical
input always yields identical ids), but chunks with equal text can get
different ids and a chunk's id can change when content elsewhere in the
thread shifts its position. -/
theorem c3_amended (readFile : String → Option (List String)) (cs : Nat)
    (td : ThreadData) :
    (createChunksFromThread readFile cs td).map (fun c => c.chunk_id) =
      (List.range (createChunksFromThread readFile cs td).length).map
        (fun i => td.thread_id.getD "unknown" ++ "_chunk_" ++
          toString (i + 1)) := by
  unfold createChunksFromThread
  exact chunkLoop_ids td (td.file_path.getD "unknown")
    (td.thread_id.getD "unknown") (threadTextMaps readFile td).2
    (threadSentences readFile td) cs (threadSentences readFile td) [] [] 0
    (by simp)

/-- C9: every chunk of every thread carries a well-formed citation: the file
field is non-empty (the thread's `file_path`, or the non-empty fallback
`"unknown"`) and `line_end ≥ line_start` — in both the exact and the
approximate (unreadable file) line-mapping regimes. -/
theorem c9_citation (readFile : String → Option (List String)) (cs : Nat)
    (td : ThreadData) (hfp : td.file_path.getD "unknown" ≠ "") :
    ∀ c ∈ createChunksFromThread readFile cs td,
      c.file ≠ "" ∧ c.line_start ≤ c.line_end := by
  intro c hc
  unfold createChunksFromThread at hc
  rcases chunkLoop_mem td (td.file_path.getD "unknown")
      (td.thread_id.getD "unknown") (threadTextMaps readFile td).2
      (threadSentences readFile td) cs (threadSentences readFile td) [] [] 0
      c hc with h | ⟨k, cur, tok, sp, rfl⟩
  · cases h
  · refine ⟨hfp, ?_⟩
    exact mapContentPos_mono _ (threadMaps_head readFile td) _ _
      (Nat.le_add_right sp _)

/-- C9 witness: the citation property at a concrete thread whose source file
cannot be read. -/
theorem c9_witness :
    (tdC3A.file_path.getD "unknown" ≠ "") ∧
    ((createChunksFromThread (fun _ => none) 1000 tdC3A).getD 0
        (mkChunk tdC3A "" "" [] 0 [] 0 0)).file ≠ "" ∧
    ((createChunksFromThread (fun _ => none) 1000 tdC3A).getD 0
        (mkChunk tdC3A "" "" [] 0 [] 0 0)).line_start ≤
      ((createChunksFromThread (fun _ => none) 1000 tdC3A).getD 0
        (mkChunk tdC3A "" "" [] 0 [] 0 0)).line_end := by
  have h := c9_citation (fun _ => none) 1000 tdC3A (by decide)
    ((createChunksFromThread (fun _ => none) 1000 tdC3A).getD 0
      (mkChunk tdC3A "" "" [] 0 [] 0 0)) (by decide)
  exact ⟨by decide, h.1, h.2⟩

/-- A concrete thread whose chunks overflow a small budget through the
overlap seed (four 36-character sentences, budget 10 tokens). -/
def tdC8 : ThreadData :=
  { thread_id := some "tA", file_path := some "p.txt",
    emails := [{ sender_name := some "A", sender_role := some "B",
                 date := some "C", subject := some "D.",
                 to_recipients := [],
                 body := some (String.intercalate " "
                   (List.replicate 4
                     (String.mk (List.replicate 35 'E') ++ "."))) }] }

/-- C8 (counterexample): a chunk can exceed the configured budget by more
than one sentence unit's worth of tokens.  With budget 10 and sentence units
estimating 9 tokens each, the overlap-seeded chunks reach a recorded
estimate of 27 and 36 tokens — more than `10 + 9`. -/
theorem c8_counterexample :
    maxTokenEst (threadSentences (fun _ => none) tdC8) = 9 ∧
    ∃ c ∈ createChunksFromThread (fun _ => none) 10 tdC8,
      10 + 9 < c.m_chunk_size := by
  refine ⟨by decide, by decide⟩

/-- C8 (amended): a chunk's recorded token estimate can exceed the budget
only through the overlap seed — three overlap sentences plus the triggering
sentence — so it is bounded by `max budget (4 * M)` where `M` is the largest
single sentence-unit estimate of the thread; chunks built purely by
accumulation stay within the budget. -/
theorem c8_amended (readFile : String → Option (List String)) (cs : Nat)
    (td : ThreadData) :
    ∀ c ∈ createChunksFromThread readFile cs td,
      c.m_chunk_size ≤
        max cs (4 * maxTokenEst (threadSentences readFile td)) := by
  intro c hc
  unfold createChunksFromThread at hc
  exact chunkLoop_bound td (td.file_path.getD "unknown")
    (td.thread_id.getD "unknown") (threadTextMaps readFile td).2
    (threadSentences readFile td) cs
    (maxTokenEst (threadSentences readFile td))
    (threadSentences readFile td) [] [] 0
    (fun s hs => le_maxTokenEst _ s hs)
    (fun s hs => absurd hs (List.not_mem_nil s))
    rfl
    (Nat.zero_le _)
    (fun c' hc' => absurd hc' (List.not_mem_nil c'))
    c hc

/-- C8 witness: the amended bound at the concrete overflowing thread. -/
theorem c8_witness :
    ((createChunksFromThread (fun _ => none) 10 tdC8).getD 0
        (mkChunk tdC8 "" "" [] 0 [] 0 0)).m_chunk_size ≤
      max 10 (4 * maxTokenEst (threadSentences (fun _ => none) tdC8)) :=
  c8_amended (fun _ => none) 10 tdC8
    ((createChunksFromThread (fun _ => none) 10 tdC8).getD 0
      (mkChunk tdC8 "" "" [] 0 [] 0 0)) (by decide)

theorem lookup_cons {α : Type} (k k0 : String) (v0 : α)
    (rest : List (String × α)) :
    List.lookup k ((k0, v0) :: rest) =
      if k = k0 then some v0 else List.lookup k rest := by
  simp only [List.lookup]
  by_cases h : k = k0
  · rw [if_pos h, show (k == k0) = true from beq_iff_eq.mpr h]
  · rw [if_neg h, show (k == k0) = false from beq_eq_false_iff_ne.mpr h]

theorem lookup_setAssoc_self {α : Type} (kvs : List (String × α))
    (k : String) (v : α) : List.lookup k (setAssoc kvs k v) = some v := by
  induction kvs with
  | nil => simp [setAssoc, lookup_cons]
  | cons kv rest ih =>
      rcases kv with ⟨k0, v0⟩
      by_cases h : k0 = k
      · simp [setAssoc, h, lookup_cons]
      · simp [setAssoc, h, lookup_cons, Ne.symm h, ih]

theorem lookup_setAssoc_ne {α : Type} (kvs : List (String × α))
    (k k' : String) (v : α) (h : k' ≠ k) :
    List.lookup k' (setAssoc kvs k v) = List.lookup k' kvs := by
  induction kvs with
  | nil => simp [setAssoc, lookup_cons, h]
  | cons kv rest ih =>
      rcases kv with ⟨k0, v0⟩
      by_cases hk : k0 = k
      · have hne : k' ≠ k0 := by rw [hk]; exact h
        simp [setAssoc, hk, lookup_cons, hne, h]
      · by_cases hk' : k' = k0 <;>
          simp [setAssoc, hk, lookup_cons, hk', ih, h]

/-- The content hash of the last chunk with a given id, if any (the
last-writer-wins value in the rewritten manifest). -/
def lastHashFold : List PyVal → String → Option String
  | [], _ => none
  | ch :: rest, cid =>
      match lastHashFold rest cid with
      | some h => some h
      | none =>
          if chunkIdOf ch = some cid then some (computeChunkHash ch)
          else none

theorem lastHashFold_isSome (chunks : List PyVal) (ch : PyVal) (cid : String)
    (hmem : ch ∈ chunks) (hid : chunkIdOf ch = some cid) :
    ∃ h, lastHashFold chunks cid = some h := by
  induction chunks with
  | nil => cases hmem
  | cons x rest ih =>
      rcases List.mem_cons.mp hmem with hx | hx
      · subst hx
        cases hr : lastHashFold rest cid with
        | some h => exact ⟨h, by simp [lastHashFold, hr]⟩
        | none =>
            refine ⟨computeChunkHash ch, ?_⟩
            simp [lastHashFold, hr, hid]
      · obtain ⟨h, hh⟩ := ih hx
        exact ⟨h, by simp [lastHashFold, hh]⟩

theorem lastHashFold_some_ex (chunks : List PyVal) (cid : String)
    (h : String) (hl : lastHashFold chunks cid = some h) :
    ∃ ch ∈ chunks, chunkIdOf ch = some cid ∧ computeChunkHash ch = h := by
  induction chunks with
  | nil => cases hl
  | cons x rest ih =>
      simp only [lastHashFold] at hl
      cases hr : lastHashFold rest cid with
      | some h' =>
          rw [hr] at hl
          obtain ⟨ch, hm, hch⟩ := ih (hr.trans hl)
          exact ⟨ch, List.mem_cons_of_mem x hm, hch⟩
      | none =>
          rw [hr] at hl
          by_cases hid : chunkIdOf x = some cid
          · rw [if_pos hid] at hl
            cases hl
            exact ⟨x, List.mem_cons_self x rest, hid, rfl⟩
          · rw [if_neg hid] at hl
            cases hl

theorem updateManifest_lookup (now : String) :
    ∀ (chunks : List PyVal) (items : Manifest) (cid : String),
    List.lookup cid (updateManifest items chunks now) =
      match lastHashFold chunks cid with
      | some h => some ⟨some h, now⟩
      | none => List.lookup cid items := by
  intro chunks
  induction chunks with
  | nil => intro items cid; rfl
  | cons ch rest ih =>
      intro items cid
      have hstep : updateManifest items (ch :: rest) now =
          updateManifest (umStep now items ch) rest now := rfl
      rw [hstep, ih]
      cases hr : lastHashFold rest cid with
      | some h => simp [lastHashFold, hr]
      | none =>
          simp only [lastHashFold, hr]
          cases hid : chunkIdOf ch with
          | none => simp [umStep, hid]
          | some cid' =>
              by_cases hc : cid' = cid
              · subst hc
                simp [umStep, hid, lookup_setAssoc_self]
              · have hif : ¬(some cid' = (some cid : Option String)) := by
                  simp [hc]
                rw [if_neg hif]
                simp only [umStep, hid]
                exact lookup_setAssoc_ne items cid' cid _ (Ne.symm hc)

theorem hashTable_cons (kv : String × MEntry) (rest : Manifest) :
    hashTable (kv :: rest) = (kv.1, kv.2.hash) :: hashTable rest := rfl

theorem hashTable_setAssoc (m : Manifest) (k : String) (e : MEntry)
    (now2 : String) (hl : List.lookup k m = some e) :
    hashTable (setAssoc m k ⟨e.hash, now2⟩) = hashTable m := by
  induction m with
  | nil => cases hl
  | cons kv rest ih =>
      rcases kv with ⟨k0, e0⟩
      rw [lookup_cons] at hl
      by_cases hk : k = k0
      · rw [if_pos hk] at hl
        injection hl with he
        subst he
        have hs : setAssoc ((k0, e0) :: rest) k ⟨e0.hash, now2⟩ =
            (k0, ⟨e0.hash, now2⟩) :: rest := by
          simp only [setAssoc]
          rw [if_pos hk.symm]
        rw [hs, hashTable_cons, hashTable_cons]
      · rw [if_neg hk] at hl
        have hs : setAssoc ((k0, e0) :: rest) k ⟨e.hash, now2⟩ =
            (k0, e0) :: setAssoc rest k ⟨e.hash, now2⟩ := by
          simp only [setAssoc]
          rw [if_neg (fun hh => hk (Eq.symm hh))]
        rw [hs, hashTable_cons, hashTable_cons, ih hl]

theorem hashTable_update_noop (now2 : String) :
    ∀ (chunks : List PyVal) (m : Manifest),
    (∀ ch ∈ chunks, ∀ cid, chunkIdOf ch = some cid →
      ∃ e, List.lookup cid m = some e ∧
        e.hash = some (computeChunkHash ch)) →
    hashTable (updateManifest m chunks now2) = hashTable m := by
  intro chunks
  induction chunks with
  | nil => intro m _; rfl
  | cons ch rest ih =>
      intro m hcond
      have hstep : updateManifest m (ch :: rest) now2 =
          updateManifest (umStep now2 m ch) rest now2 := rfl
      rw [hstep]
      cases hid : chunkIdOf ch with
      | none =>
          have hm : umStep now2 m ch = m := by simp [umStep, hid]
          rw [hm]
          exact ih m (fun ch2 h2 => hcond ch2 (List.mem_cons_of_mem ch h2))
      | some cid =>
          obtain ⟨e, hle, hhe⟩ := hcond ch (List.mem_cons_self ch rest) cid hid
          have hm : umStep now2 m ch =
              setAssoc m cid ⟨e.hash, now2⟩ := by
            simp [umStep, hid, hhe]
          rw [hm]
          have hht := hashTable_setAssoc m cid e now2 hle
          rw [show hashTable (updateManifest (setAssoc m cid ⟨e.hash, now2⟩)
              rest now2) = hashTable (setAssoc m cid ⟨e.hash, now2⟩) from ?_,
            hht]
          refine ih _ ?_
          intro ch2 h2 cid2 hid2
          by_cases hc : cid2 = cid
          · subst hc
            obtain ⟨e2, hle2, hhe2⟩ := hcond ch2
              (List.mem_cons_of_mem ch h2) cid2 hid2
            rw [hle] at hle2
            cases hle2
            exact ⟨⟨e.hash, now2⟩, lookup_setAssoc_self m cid2 _, hhe2⟩
          · obtain ⟨e2, hle2, hhe2⟩ := hcond ch2
              (List.mem_cons_of_mem ch h2) cid2 hid2
            exact ⟨e2, by rw [lookup_setAssoc_ne m cid cid2 _ hc]; exact hle2,
              hhe2⟩

/-- A chunk record with id `"a"` and text `"x"`. -/
def c6ChunkX : PyVal := PyVal.pdict [("id", PyVal.pstr "a"),
  ("text", PyVal.pstr "x")]

/-- A chunk record with the same id `"a"` but text `"y"`. -/
def c6ChunkY : PyVal := PyVal.pdict [("id", PyVal.pstr "a"),
  ("text", PyVal.pstr "y")]

/-- C6 (counterexample): with a chunk set holding two chunks that share an
id but differ in content, the second incremental run's to-upsert plan is not
empty — the first chunk's hash differs from the manifest's last-writer-wins
entry, so it is re-embedded and re-upserted on every run. -/
theorem c6_counterexample :
    buildPlan true (updateManifest [] [c6ChunkX, c6ChunkY] "t1")
      [c6ChunkX, c6ChunkY] = [c6ChunkX] ∧
    ([c6ChunkX] : List PyVal) ≠ [] := by
  exact ⟨by decide, by decide⟩

/-- C6 (amended): for every chunk set in which chunks sharing an id have
equal content hashes (in particular whenever ids are distinct — true of any
chunk set whose ids are unique, as the pipeline produces), a second
incremental run over the identical chunk set is idempotent: its to-upsert
plan is empty (nothing is re-embedded or re-upserted) and the manifest's
id-to-content-hash table is unchanged. -/
theorem c6_amended (items : Manifest) (chunks : List PyVal)
    (now now2 : String)
    (hcons : ∀ ch1 ∈ chunks, ∀ ch2 ∈ chunks,
      chunkIdOf ch1 = chunkIdOf ch2 →
      computeChunkHash ch1 = computeChunkHash ch2) :
    buildPlan true (updateManifest items chunks now) chunks = [] ∧
    hashTable (updateManifest (updateManifest items chunks now) chunks
        now2) =
      hashTable (updateManifest items chunks now) := by
  have hlook : ∀ ch ∈ chunks, ∀ cid, chunkIdOf ch = some cid →
      List.lookup cid (updateManifest items chunks now) =
        some ⟨some (computeChunkHash ch), now⟩ := by
    intro ch hch cid hid
    obtain ⟨h, hh⟩ := lastHashFold_isSome chunks ch cid hch hid
    obtain ⟨ch', hm', hid', hhash'⟩ := lastHashFold_some_ex chunks cid h hh
    have heq : computeChunkHash ch' = computeChunkHash ch :=
      hcons ch' hm' ch hch (by rw [hid', hid])
    rw [updateManifest_lookup, hh, ← hhash', heq]
  constructor
  · unfold buildPlan
    rw [List.filter_eq_nil_iff]
    intro ch hch
    cases hid : chunkIdOf ch with
    | none => simp [hid]
    | some cid =>
        have hl := hlook ch hch cid hid
        simp [hid, hl]
  · refine hashTable_update_noop now2 chunks _ ?_
    intro ch hch cid hid
    exact ⟨⟨some (computeChunkHash ch), now⟩, hlook ch hch cid hid, rfl⟩

/-- C6 witness: the amended theorem at a concrete one-chunk set. -/
theorem c6_witness :
    buildPlan true (updateManifest [] [c6ChunkX] "t1") [c6ChunkX] = [] ∧
    hashTable (updateManifest (updateManifest [] [c6ChunkX] "t1") [c6ChunkX]
        "t2") =
      hashTable (updateManifest [] [c6ChunkX] "t1") :=
  c6_amended [] [c6ChunkX] "t1" "t2" (by decide)
